import Mathlib

/-!
Shallow embedding of the client-side core of the finanzas-jader personal
finance application (src/src/App.tsx): the money normalizer, the record
store mutations, the aggregation engine, the filter/sort/pagination
pipeline and the export/import interchange.  Machine numbers (JS doubles)
are modelled as rationals; the amounts appearing in the claims are exact
decimals, so no double-rounding behaviour is relevant to any claim.
Strings are modelled with Lean strings; JS string comparison on the ASCII
date strings used by the program coincides with Lean's lexicographic
character order.
-/

namespace FinanzasJader

/-! ## Data model (App.tsx lines 94-147) -/

/-- The transaction type union from App.tsx line 94. -/
inductive TxType
  | ingreso
  | gasto
  | transferencia
deriving DecidableEq, Repr

/-- The string value each member of the TxType union carries in the source. -/
def typeName : TxType → String
  | .ingreso => "Ingreso"
  | .gasto => "Gasto"
  | .transferencia => "Transferencia"

/-- The fixed Account union from App.tsx lines 95-101. -/
inductive Account
  | davivienda
  | bogota
  | nequi
  | rappi
  | efectivo
  | tcRappi
deriving DecidableEq, Repr

/-- The string value of each account name in the source. -/
def accountName : Account → String
  | .davivienda => "Banco Davivienda"
  | .bogota => "Banco de Bogotá"
  | .nequi => "Nequi"
  | .rappi => "Rappi"
  | .efectivo => "Efectivo"
  | .tcRappi => "TC Rappi"

/-- The ACCOUNTS constant, App.tsx lines 140-147. -/
def ACCOUNTS : List Account :=
  [.davivienda, .bogota, .nequi, .rappi, .efectivo, .tcRappi]

/-- One ledger record (type Tx, App.tsx lines 104-115).  Optional fields
(toAccount, note) become Option; an absent field is none, the empty string
is some "". -/
structure Tx where
  id : String
  type : TxType
  account : Account
  toAccount : Option String
  date : String
  time : String
  amount : ℚ
  category : String
  subcategory : String
  note : Option String
deriving DecidableEq, Repr

/-- Budget ceilings (App.tsx lines 117-121). -/
structure Budget where
  basicos : ℚ
  deseos : ℚ
  ahorro : ℚ
deriving DecidableEq, Repr

/-! ## Money normalizer (App.tsx lines 54-76)

normalizeMoneyInput cleans its input with four regex passes, parses the
result using the decimal-comma convention, and renders the value back with
dot thousands grouping and exactly two comma decimals.  Each cleaning pass
is translated to a character-list function with the same semantics as the
JS regex replace.  Number() on the restricted alphabet that can reach it
(digits, '.', ',', '-') is modelled by jsNumber, returning none for NaN. -/

/-- JS regex digit class for the characters of this program. -/
def jsIsDigit (c : Char) : Bool := 48 ≤ c.toNat && c.toNat ≤ 57

/-- JS whitespace class (the ASCII part; the program never feeds other
whitespace to the normalizer). -/
def jsIsSpace (c : Char) : Bool :=
  c = ' ' || c = '\t' || c = '\n' || c = '\r' || c = '\x0b' || c = '\x0c'

/-- Character class kept by the second cleaning pass (digits, dot, comma,
minus). -/
def keepMoneyChar (c : Char) : Bool := jsIsDigit c || c = '.' || c = ',' || c = '-'

/-- Third pass: drop every comma that is followed by a later comma
(only the last comma survives). -/
def dropEarlyCommas : List Char → List Char
  | [] => []
  | c :: rest =>
    if c = ',' && rest.contains ',' then dropEarlyCommas rest
    else c :: dropEarlyCommas rest

/-- Lookahead of the fourth pass: the next three characters are digits and
the fourth is a non-digit or the end of the string. -/
def groupDotLookahead : List Char → Bool
  | d1 :: d2 :: d3 :: t =>
    jsIsDigit d1 && jsIsDigit d2 && jsIsDigit d3 &&
      (match t with
       | [] => true
       | c :: _ => !(jsIsDigit c))
  | _ => false

/-- Fourth pass: drop every dot whose lookahead matches (a thousands
separator dot). -/
def dropGroupDots : List Char → List Char
  | [] => []
  | c :: rest =>
    if c = '.' && groupDotLookahead rest then dropGroupDots rest
    else c :: dropGroupDots rest

/-- The full cleaning chain of App.tsx lines 56-60. -/
def cleanMoney (s : String) : List Char :=
  dropGroupDots (dropEarlyCommas ((s.data.filter (fun c => !jsIsSpace c)).filter keepMoneyChar))

/-- JS String.split on a single separator character. -/
def splitOnChar (sep : Char) : List Char → List (List Char)
  | [] => [[]]
  | c :: rest =>
    if c = sep then [] :: splitOnChar sep rest
    else
      match splitOnChar sep rest with
      | [] => [[c]]
      | h :: t => (c :: h) :: t

/-- Numeric value of a digit character. -/
def digitVal (c : Char) : ℕ := c.toNat - 48

/-- Value of a most-significant-first digit string. -/
def natFromDigits (l : List Char) : ℕ := l.foldl (fun a c => 10 * a + digitVal c) 0

/-- JS Number() on strings over the alphabet digits / '.' / '-' (the only
strings the normalizer feeds it).  none models NaN; the empty string is 0;
a stray minus or a second dot is NaN, exactly as in JS. -/
def jsNumber (l : List Char) : Option ℚ :=
  if l = [] then some 0
  else
    let neg := l.head? = some '-'
    let body := if neg then l.tail else l
    let signed : ℚ → ℚ := fun q => if neg then -q else q
    match splitOnChar '.' body with
    | [ip] =>
      if ip ≠ [] ∧ ip.all jsIsDigit then some (signed (natFromDigits ip)) else none
    | [ip, fp] =>
      if (ip ≠ [] ∨ fp ≠ []) ∧ ip.all jsIsDigit ∧ fp.all jsIsDigit then
        some (signed ((natFromDigits ip : ℚ) + (natFromDigits fp : ℚ) / (10 : ℚ) ^ fp.length))
      else none
    | _ => none

/-- JS String.replace(",", ".") : replace the first comma only. -/
def replaceFirstComma : List Char → List Char
  | [] => []
  | c :: rest => if c = ',' then '.' :: rest else c :: replaceFirstComma rest

/-- Digit character for d < 10. -/
def digitChar10 (d : ℕ) : Char := Char.ofNat (48 + d)

/-- Decimal rendering of a natural number, most significant digit first
(the integer-part rendering JS toFixed produces). -/
def natDigitsChars (n : ℕ) : List Char := ((Nat.digits 10 n).map digitChar10).reverse

/-- Integer part rendering; 0 renders as "0". -/
def intPartRepr (n : ℕ) : List Char := if n = 0 then ['0'] else natDigitsChars n

/-- Two-digit rendering of d < 100 (the cents of toFixed(2)). -/
def twoDigits (d : ℕ) : List Char := [digitChar10 (d / 10), digitChar10 (d % 10)]

/-- toFixed(2) rounding of a non-negative rational: the number of cents,
nearest integer with ties upward. -/
def roundCents (q : ℚ) : ℕ := (⌊100 * q + 1 / 2⌋).toNat

/-- Thousands grouping on an all-digit string: insert a dot before every
position whose distance to the right end is a positive multiple of 3.
This is what the grouping regex of App.tsx line 72 does on the digit
strings of the fixed-notation branch; groupRegex below is the general
regex and coincides with this function on all-digit strings. -/
def group3 : List Char → List Char
  | [] => []
  | c :: rest =>
    if rest.length % 3 = 0 && rest.length != 0 then c :: '.' :: group3 rest
    else c :: group3 rest

/-- JS regex word character class (letters, digits, underscore), used by
the word-boundary assertion of the grouping regex. -/
def jsWordChar (c : Char) : Bool :=
  jsIsDigit c || (65 ≤ c.toNat && c.toNat ≤ 90) ||
    (97 ≤ c.toNat && c.toNat ≤ 122) || c = '_'

/-- The lookahead (three-digits)+ not-followed-by-digit of the grouping
regex, at a position with the given suffix.  With r the maximal digit
run at the position, the backtracking lookahead succeeds exactly when
some positive multiple 3j of three digits is followed by a non-digit or
the end; since the run is maximal that forces 3j = r, so the condition
is r at least 3 and divisible by 3. -/
def tripleRunOK (suffix : List Char) : Bool :=
  let r := (suffix.takeWhile jsIsDigit).length
  decide (3 ≤ r) && decide (r % 3 = 0)

/-- The non-word-boundary assertion of the grouping regex between the
previous character and the suffix (positions outside the string count as
non-word). -/
def noWordBoundary (prev : Char) (suffix : List Char) : Bool :=
  jsWordChar prev ==
    (match suffix with
     | [] => false
     | c :: _ => jsWordChar c)

/-- One left-to-right scan of the zero-width grouping regex of App.tsx
line 72 over the suffix after prev, inserting a dot at every matching
position. -/
def groupRegexAux (prev : Char) : List Char → List Char
  | [] => []
  | c :: rest =>
    if noWordBoundary prev (c :: rest) && tripleRunOK (c :: rest) then
      '.' :: c :: groupRegexAux c rest
    else c :: groupRegexAux c rest

/-- The grouping regex replace of App.tsx line 72 in full generality:
ent.replace of the zero-width pattern (non-word-boundary followed by a
positive multiple of three digits not followed by a digit) by a dot.  A
match at position 0 is impossible (a leading digit makes it a word
boundary, a leading non-digit kills the digit lookahead), so the head
character always passes through. -/
def groupRegex : List Char → List Char
  | [] => []
  | c :: rest => c :: groupRegexAux c rest

/-- toFixed(2) in its fixed-notation range (x below 10^21): integer
part, dot, exactly two decimals. -/
def toFixed2Chars (x : ℚ) : List Char :=
  let n := roundCents x
  intPartRepr (n / 100) ++ '.' :: twoDigits (n % 100)

/-- Little-endian base-10 digits by structural recursion on a fuel
argument (fuel bounds the digit count; any double has well under 400
decimal digits, so fuel 400 is exact on the whole modelled domain).
Same digits as Nat.digits 10, but reducible by plain evaluation. -/
def natDigitsFuel : ℕ → ℕ → List ℕ
  | 0, _ => []
  | fuel + 1, n => if n = 0 then [] else n % 10 :: natDigitsFuel fuel (n / 10)

/-- Decimal rendering of the exponent in scientific notation. -/
def expRepr (n : ℕ) : List Char :=
  if n = 0 then ['0'] else ((natDigitsFuel 400 n).map digitChar10).reverse

/-- Scientific notation d.ddd e+EE for a whole number: decimal
significand with trailing zeros stripped, then exponent. -/
def jsToStringBigN (n : ℕ) : List Char :=
  let L := natDigitsFuel 400 n
  let sig := (L.dropWhile fun d => d = 0).reverse
  let e := L.length - 1
  match sig with
  | [] => ['0']
  | d :: ds =>
    (digitChar10 d :: (if ds = [] then [] else '.' :: ds.map digitChar10))
      ++ 'e' :: '+' :: expRepr e

/-- What toFixed(2) returns for x at or above 10^21: per ECMAScript,
ToString(x), which at that magnitude is scientific notation d.ddd e+EE
built from the decimal significand (trailing zeros stripped) and
exponent.  The double is modelled by the nearest whole number, in line
with this file's rationals-for-doubles convention; every value the
program parses out of a plain digit string is a whole number anyway. -/
def jsToStringBig (q : ℚ) : List Char :=
  jsToStringBigN (⌊q + 1 / 2⌋).toNat

/-- The canonical rendering built in App.tsx lines 71-74: toFixed(2) of
the absolute value (fixed notation below 10^21, ToString at or above,
as ECMAScript specifies for toFixed), split at the dot into integer and
decimal parts (missing decimal part defaults to the empty string), the
grouping regex applied to the integer part, then sign, grouped part,
comma, decimal part. -/
def renderMoney (num : ℚ) : List Char :=
  let fixStr := if |num| < 10 ^ 21 then toFixed2Chars |num| else jsToStringBig |num|
  let parts := splitOnChar '.' fixStr
  let ent := parts.headD []
  let dec := (parts.drop 1).headD []
  (if num < 0 then ['-'] else []) ++ groupRegex ent ++ ',' :: dec

/-- Result record of normalizeMoneyInput. -/
structure MoneyNorm where
  raw : String
  value : ℚ
deriving DecidableEq, Repr

/-- normalizeMoneyInput, App.tsx lines 54-75, translated step by step.
When the cleaned string has a comma, the part after it is the fraction;
all dots are stripped before conversion; a NaN from Number() coerces the
whole value to 0. -/
def normalizeMoneyInput (s : String) : MoneyNorm :=
  if s = "" then ⟨"", 0⟩
  else
    let clean := cleanMoney s
    let num : ℚ :=
      match splitOnChar ',' clean with
      | [p0, p1] =>
        match jsNumber (p0.filter (fun c => c ≠ '.')),
              jsNumber ('0' :: '.' :: p1.filter (fun c => c ≠ '.')) with
        | some a, some b => a + b
        | _, _ => 0
      | _ =>
        match jsNumber (replaceFirstComma (clean.filter (fun c => c ≠ '.'))) with
        | some a => a
        | none => 0
    ⟨String.mk (renderMoney num), num⟩

/-- toNumberFromRaw, App.tsx line 76. -/
def toNumberFromRaw (raw : String) : ℚ := (normalizeMoneyInput raw).value

/-! ## Record store mutations (App.tsx lines 347-359, 515-529, 613-652)

Ids and wall-clock times come from the environment (crypto.randomUUID and
new Date()); the embedding takes them as explicit arguments. -/

/-- The transfer form state (App.tsx lines 340-345).  In the source the
two accounts are members of the Account union (never empty), so the
falsy checks on them at line 348 cannot fire; the from/to fields are named
fromA/toA because from is reserved in Lean. -/
structure TrfForm where
  fromA : Account
  toA : Account
  date : String
  amountRaw : String
deriving DecidableEq, Repr

/-- handleTransfer, App.tsx lines 347-359: reject silently when the two
accounts coincide or the parsed absolute amount is zero; otherwise prepend
the outgoing and incoming halves of the transfer. -/
def handleTransfer (id1 id2 time : String) (trf : TrfForm) (txs : List Tx) : List Tx :=
  if trf.fromA = trf.toA then txs
  else
    let amount := |toNumberFromRaw trf.amountRaw|
    if amount = 0 then txs
    else
      let outTx : Tx :=
        ⟨id1, .transferencia, trf.fromA, some (accountName trf.toA), trf.date, time,
          -amount, "Ingresos", "Entre cuentas", some ""⟩
      let incTx : Tx :=
        ⟨id2, .transferencia, trf.toA, some (accountName trf.fromA), trf.date, time,
          amount, "Ingresos", "Entre cuentas", some ""⟩
      outTx :: incTx :: txs

/-- The capture form state (App.tsx lines 329-336). -/
structure SaveForm where
  type : TxType
  account : Account
  toAccount : String
  date : String
  amountRaw : String
  category : String
  subcategory : String
  note : String
deriving DecidableEq, Repr

/-- handleSave, new-record branch (App.tsx lines 630-645): reject on zero
amount, else prepend one fresh record signed by its type. -/
def handleSaveNew (fresh time : String) (f : SaveForm) (txs : List Tx) : List Tx :=
  let amount := toNumberFromRaw f.amountRaw
  if amount = 0 then txs
  else
    let sign : ℚ := if f.type = .ingreso then 1 else -1
    ⟨fresh, f.type, f.account, some "", f.date, time, |amount| * sign,
      f.category, f.subcategory, some f.note⟩ :: txs

/-- handleSave, edit branch (App.tsx lines 617-629): reject on zero
amount, else replace the record with the editing id in place, keeping its
id, time and toAccount. -/
def handleSaveEdit (f : SaveForm) (editing : Tx) (txs : List Tx) : List Tx :=
  let amount := toNumberFromRaw f.amountRaw
  if amount = 0 then txs
  else
    let updated : Tx :=
      { editing with
        type := f.type
        account := f.account
        date := f.date
        amount := if f.type = .ingreso then |amount| else -|amount|
        category := f.category
        subcategory := f.subcategory
        note := some f.note }
    txs.map fun t => if t.id = editing.id then updated else t

/-- deleteSelected, App.tsx lines 515-529: no-op on an empty selection,
else drop every record whose id is selected. -/
def deleteSelected (sel : List String) (txs : List Tx) : List Tx :=
  if sel = [] then txs else txs.filter fun t => ! sel.contains t.id

/-! ## Aggregation engine (App.tsx lines 370-402) -/

/-- Month key of a record: the first seven characters of its date
(t.date.slice(0, 7)). -/
def monthOf (t : Tx) : String := t.date.take 7

/-- txOfMonth, App.tsx line 370. -/
def txOfMonth (txs : List Tx) (month : String) : List Tx :=
  txs.filter fun t => monthOf t = month

/-- byAccountAllTime, App.tsx lines 372-376: fold the whole record list
into a per-account balance map initialised to zero. -/
def byAccountAllTime (txs : List Tx) : Account → ℚ :=
  txs.foldl (fun m t => fun a => if a = t.account then m a + t.amount else m a) fun _ => 0

/-- The saldoActual computed inside totals (App.tsx line 388): the sum of
every account balance minus the credit-card balance. -/
def saldoActual (txs : List Tx) : ℚ :=
  (ACCOUNTS.map (byAccountAllTime txs)).sum - byAccountAllTime txs .tcRappi

/-- The three running sums of the totals memo. -/
structure Totals where
  ingresos : ℚ
  gastos : ℚ
  ahorro : ℚ
deriving DecidableEq, Repr

/-- One step of the totals forEach (App.tsx lines 380-387); the three
conditionals are independent per field. -/
def totalsStep (acc : Totals) (t : Tx) : Totals :=
  { ingresos := acc.ingresos +
      if t.type = .ingreso ∧ accountName t.account ≠ "TC Rappi" then t.amount else 0
    gastos := acc.gastos + if t.type = .gasto then |t.amount| else 0
    ahorro := acc.ahorro +
      if t.category = "Ahorro" then
        if t.type = .ingreso then |t.amount|
        else if t.type = .gasto then -|t.amount| else 0
      else 0 }

/-- totals, App.tsx lines 378-390, over the records of the active month. -/
def totals (txs : List Tx) (month : String) : Totals :=
  (txOfMonth txs month).foldl totalsStep ⟨0, 0, 0⟩

/-- Lookup in an insertion-ordered association list (the order-preserving
behaviour of a JS Map / plain object keyed by strings). -/
def alFind {β : Type} : List (String × β) → String → Option β
  | [], _ => none
  | (k', v) :: rest, k => if k' = k then some v else alFind rest k

/-- Add c to the entry of key k, creating the entry at the end on first
touch, exactly as map.set(k, (map.get(k) || 0) + c) does. -/
def bumpAL {β : Type} [Add β] (l : List (String × β)) (k : String) (c : β) :
    List (String × β) :=
  match l with
  | [] => [(k, c)]
  | (k', v) :: rest => if k' = k then (k', v + c) :: rest else (k', v) :: bumpAL rest k c

/-- Per-record contribution to the byMonth map entry of the record's
month (App.tsx lines 396-398): income excludes the credit-card account,
expense adds absolute value. -/
def byMonthContrib (t : Tx) : ℚ × ℚ :=
  ((if t.type = .ingreso ∧ accountName t.account ≠ "TC Rappi" then t.amount else 0),
   (if t.type = .gasto then |t.amount| else 0))

/-- The byMonth map build (App.tsx lines 393-399). -/
def byMonthFold (txs : List Tx) : List (String × (ℚ × ℚ)) :=
  txs.foldl (fun acc t => bumpAL acc (monthOf t) (byMonthContrib t)) []

/-- Stable insertion by ascending key, matching the comparator
(a < b ? -1 : 1) of App.tsx line 400. -/
def insertByKeyAsc {β : Type} (x : String × β) :
    List (String × β) → List (String × β)
  | [] => [x]
  | y :: t => if x.1 < y.1 then x :: y :: t else y :: insertByKeyAsc x t

/-- The stable sort by month key used on the byMonth entries. -/
def sortByKeyAsc {β : Type} (l : List (String × β)) : List (String × β) :=
  l.foldl (fun acc x => insertByKeyAsc x acc) []

/-- byMonth, App.tsx lines 392-402: monthly (income, expense) entries
sorted chronologically, keeping the trailing six (slice(-6)). -/
def byMonth (txs : List Tx) : List (String × (ℚ × ℚ)) :=
  let arr := sortByKeyAsc (byMonthFold txs)
  arr.drop (arr.length - 6)

/-! ## Grouped breakdown for charts (App.tsx lines 404-450) -/

/-- The three grouping views (App.tsx line 404). -/
inductive ChartView
  | categoria
  | subcategoria
  | cuenta
deriving DecidableEq, Repr

/-- txForCharts, App.tsx lines 418-427: records inside the inclusive date
range, of expense type, passing the account filter whose all-accounts
sentinel is the string Todas. -/
def txForCharts (txs : List Tx) (fromD toD accFilter : String) : List Tx :=
  txs.filter fun t =>
    (fromD ≤ t.date ∧ t.date ≤ toD) ∧ t.type = .gasto ∧
      (accFilter = "Todas" ∨ accountName t.account = accFilter)

/-- The JS fallback key expr || "Otros" (falsy string is the empty one). -/
def orOtros (s : String) : String := if s = "" then "Otros" else s

/-- Group key per view (App.tsx lines 433-445). -/
def chartKey (view : ChartView) (t : Tx) : String :=
  match view with
  | .categoria => orOtros t.category
  | .cuenta => accountName t.account
  | .subcategoria => orOtros t.subcategory

/-- The drill-down category of the subcategory view (App.tsx lines
438-444): the selected one, or on an empty selection the first category
attaining the maximal aggregate absolute expense, scanning the per-category
map in insertion order with a strict-improvement fold started at ("", -1). -/
def chosenCat (txF : List Tx) (selectedCat : String) : String :=
  if selectedCat ≠ "" then selectedCat
  else
    ((txF.foldl (fun acc t => bumpAL acc t.category |t.amount|) []).foldl
      (fun p kv => if kv.2 > p.2 then kv else p) ("", -1)).1

/-- The records actually folded into groups: the filtered chart records,
further restricted to the drill-down category in the subcategory view. -/
def chartBase (view : ChartView) (txF : List Tx) (selectedCat : String) : List Tx :=
  match view with
  | .subcategoria => txF.filter fun t => t.category = chosenCat txF selectedCat
  | _ => txF

/-- The grouped absolute sums, in first-insertion order (the add closure
of App.tsx line 431). -/
def analyticsGroups (view : ChartView) (txF : List Tx) (selectedCat : String) :
    List (String × ℚ) :=
  (chartBase view txF selectedCat).foldl
    (fun m t => bumpAL m (chartKey view t) |t.amount|) []

/-- Stable insertion by descending value, matching the comparator
(a, b) => b.value - a.value of App.tsx line 448. -/
def insertByValDesc (x : String × ℚ) : List (String × ℚ) → List (String × ℚ)
  | [] => [x]
  | y :: t => if x.2 > y.2 then x :: y :: t else y :: insertByValDesc x t

/-- The stable descending sort of the group entries. -/
def sortByValDesc (l : List (String × ℚ)) : List (String × ℚ) :=
  l.foldl (fun acc x => insertByValDesc x acc) []

/-- analyticsData, App.tsx lines 429-450: grouped sums sorted by
descending total, or the single placeholder entry on an empty result. -/
def analyticsData (view : ChartView) (txF : List Tx) (selectedCat : String) :
    List (String × ℚ) :=
  let arr := sortByValDesc (analyticsGroups view txF selectedCat)
  if arr = [] then [("Sin datos", 0)] else arr

/-! ## Filter/sort/pagination pipeline (App.tsx lines 452-505, 1468-1478) -/

/-- The table filter and sort parameter state slices
(App.tsx lines 453-462).  filterType and filterAccount hold the strings
of their Select options; the source initialises filterAccount to the
string Todos (line 462) while its option list offers Todas. -/
structure TableFilters where
  search : String
  filterType : String
  filterAccount : String
  filterDateFrom : String
  filterDateTo : String
  sortKey : String
  sortDir : String
deriving DecidableEq, Repr

/-- The initial table filter state (App.tsx lines 453-462). -/
def initialTableFilters : TableFilters :=
  ⟨"", "Todos", "Todos", "", "", "fecha", "Desc"⟩

/-- ASCII lowercase of the search haystacks (JS toLowerCase on the
program's data). -/
def lowerStr (s : String) : String := String.mk (s.data.map Char.toLower)

/-- The free-text match of App.tsx lines 469-474: the lowered trimmed
query is an infix of the lowered category, subcategory, account name or
note. -/
def matchesSearch (q : String) (t : Tx) : Prop :=
  q.data <:+: (lowerStr t.category).data ∨
  q.data <:+: (lowerStr t.subcategory).data ∨
  q.data <:+: (lowerStr (accountName t.account)).data ∨
  q.data <:+: (lowerStr ((t.note).getD "")).data

instance (q : String) (t : Tx) : Decidable (matchesSearch q t) := by
  unfold matchesSearch
  infer_instance

/-- The sort key string of a record for the fecha ordering:
date ++ " " ++ time (App.tsx lines 491-492). -/
def fechaKey (t : Tx) : String := t.date ++ " " ++ t.time

/-- The comparator of App.tsx lines 489-499 as an Ordering, before the
direction flip. -/
def cmpTx (sortKey : String) (a b : Tx) : Ordering :=
  if sortKey = "fecha" then compare (fechaKey a) (fechaKey b)
  else compare (accountName a.account) (accountName b.account)

/-- Whether a sorts strictly before b under the chosen key and direction
(comparator value < 0). -/
def sortsBefore (sortKey sortDir : String) (a b : Tx) : Prop :=
  if sortDir = "Asc" then cmpTx sortKey a b = .lt else cmpTx sortKey a b = .gt

instance (sortKey sortDir : String) (a b : Tx) :
    Decidable (sortsBefore sortKey sortDir a b) := by
  unfold sortsBefore
  infer_instance

/-- Stable insertion for the table sort: a later element passes over
exactly the elements it must precede (comparator < 0), landing after
comparator-equal ones, as a stable Array.sort does. -/
def insertTx (sortKey sortDir : String) (x : Tx) : List Tx → List Tx
  | [] => [x]
  | y :: t =>
    if sortsBefore sortKey sortDir x y then x :: y :: t
    else y :: insertTx sortKey sortDir x t

/-- The stable table sort. -/
def sortTxs (sortKey sortDir : String) (l : List Tx) : List Tx :=
  l.foldl (fun acc x => insertTx sortKey sortDir x acc) []

/-- filteredSorted, App.tsx lines 464-502: the successive conditional
filters (search, type, account, date bounds) followed by the stable
sort.  Note the account branch treats only the string Todos as the
no-filter sentinel (line 479). -/
def filteredSorted (txs : List Tx) (f : TableFilters) : List Tx :=
  let items := txs
  let items := if f.search ≠ "" then
      items.filter (matchesSearch (lowerStr f.search.trim)) else items
  let items := if f.filterType ≠ "Todos" then
      items.filter (fun t => typeName t.type = f.filterType) else items
  let items := if f.filterAccount ≠ "Todos" then
      items.filter (fun t => accountName t.account = f.filterAccount) else items
  let items := if f.filterDateFrom ≠ "" then
      items.filter (fun t => f.filterDateFrom ≤ t.date) else items
  let items := if f.filterDateTo ≠ "" then
      items.filter (fun t => t.date ≤ f.filterDateTo) else items
  sortTxs f.sortKey f.sortDir items

/-- PAGE_SIZE, App.tsx line 457. -/
def PAGE_SIZE : ℕ := 10

/-- Math.max(1, Math.ceil(len / 10)) of App.tsx line 504. -/
def pageCountLen (len : ℕ) : ℕ := max 1 ((len + (PAGE_SIZE - 1)) / PAGE_SIZE)

/-- The account Select options of the table filters (App.tsx line 1342):
the sentinel offered by the UI is the string Todas. -/
def filterAccountOptions : List String := "Todas" :: ACCOUNTS.map accountName

/-- The value the Limpiar reset writes into filterAccount
(App.tsx line 1376). -/
def limpiarFilterAccount : String := "Todas"

/-- The composite table state the pagination claims are about: the record
list, the filter parameters and the 1-based page index. -/
structure TableState where
  tx : List Tx
  filters : TableFilters
  page : ℕ
deriving Repr

/-- The derived page count of a state (App.tsx line 504). -/
def pageCount (s : TableState) : ℕ :=
  pageCountLen (filteredSorted s.tx s.filters).length

/-- pageRows, App.tsx line 505: slice((page-1)*10, page*10). -/
def pageRows (s : TableState) : List Tx :=
  ((filteredSorted s.tx s.filters).drop ((s.page - 1) * PAGE_SIZE)).take PAGE_SIZE

/-- The back-arrow handler, App.tsx line 1468: page := max 1 (page - 1). -/
def clickPrev (s : TableState) : TableState :=
  { s with page := max 1 (s.page - 1) }

/-- The forward-arrow handler, App.tsx line 1475:
page := min pageCount (page + 1). -/
def clickNext (s : TableState) : TableState :=
  { s with page := min (pageCount s) (s.page + 1) }

/-- The setFilterType select handler (App.tsx line 1335): it writes the
one state slice and nothing else; in particular no effect in the
component re-clamps page when the filtered list changes size. -/
def setFilterTypeEvt (v : String) (s : TableState) : TableState :=
  { s with filters := { s.filters with filterType := v } }

/-- The setFilterAccount select handler (App.tsx line 1341); like every
filter setter it leaves the page index untouched. -/
def setFilterAccountEvt (v : String) (s : TableState) : TableState :=
  { s with filters := { s.filters with filterAccount := v } }

/-- A sample expense record used by the pagination scenario. -/
def sampleGasto : Tx :=
  ⟨"g", .gasto, .efectivo, none, "2025-01-01", "10:00:00", -10, "Deseos", "Ocio", none⟩

/-- A sample income record used by the pagination scenario. -/
def sampleIngreso : Tx :=
  ⟨"i", .ingreso, .nequi, none, "2025-01-01", "10:00:00", 10, "Ingresos", "Salario", none⟩

/-- A 35-record list of which exactly 25 are expenses: the concrete
record list of the pagination scenario. -/
def txC2 : List Tx := List.replicate 25 sampleGasto ++ List.replicate 10 sampleIngreso

/-- The pagination scenario: from page 1 over the 35-record list (all
records filtered in), three forward clicks reach page 4; then the type
filter is set to Gasto, shrinking the filtered set to 25 records, an
event that does not touch the page index. -/
def c2FinalState : TableState :=
  setFilterTypeEvt "Gasto" (clickNext (clickNext (clickNext ⟨txC2, initialTableFilters, 1⟩)))

/-! ## Export / import interchange (App.tsx lines 1513-1524, 1583-1597)

The exported file is one JSON document; we model the document as a JSON
value (JSON.stringify followed by JSON.parse is the identity on the JSON
values this program writes: finite numbers, strings, arrays, plain
objects).  Reading the parsed document back into the typed state is the
decode direction; on the image of the encoder it always succeeds. -/

/-- JSON values; objects keep their key insertion order. -/
inductive Json
  | jnull
  | jbool (b : Bool)
  | jnum (q : ℚ)
  | jstr (s : String)
  | jarr (l : List Json)
  | jobj (l : List (String × Json))

/-- JSON.stringify of a Tx object: the declared fields in declaration
order, skipping the optional ones that are undefined. -/
def encodeTx (t : Tx) : Json :=
  .jobj
    ([("id", .jstr t.id), ("type", .jstr (typeName t.type)),
      ("account", .jstr (accountName t.account))] ++
     (match t.toAccount with
      | none => []
      | some s => [("toAccount", .jstr s)]) ++
     [("date", .jstr t.date), ("time", .jstr t.time), ("amount", .jnum t.amount),
      ("category", .jstr t.category), ("subcategory", .jstr t.subcategory)] ++
     (match t.note with
      | none => []
      | some s => [("note", .jstr s)]))

/-- Read a string field of a parsed object. -/
def getStr (l : List (String × Json)) (k : String) : Option String :=
  match alFind l k with
  | some (.jstr s) => some s
  | _ => none

/-- Read a numeric field of a parsed object. -/
def getNum (l : List (String × Json)) (k : String) : Option ℚ :=
  match alFind l k with
  | some (.jnum q) => some q
  | _ => none

/-- The inverse of typeName on the three union strings. -/
def strToTxType (s : String) : Option TxType :=
  if s = "Ingreso" then some .ingreso
  else if s = "Gasto" then some .gasto
  else if s = "Transferencia" then some .transferencia
  else none

/-- The inverse of accountName on the six union strings. -/
def strToAccount (s : String) : Option Account :=
  if s = "Banco Davivienda" then some .davivienda
  else if s = "Banco de Bogotá" then some .bogota
  else if s = "Nequi" then some .nequi
  else if s = "Rappi" then some .rappi
  else if s = "Efectivo" then some .efectivo
  else if s = "TC Rappi" then some .tcRappi
  else none

/-- Reading one parsed record object back as a Tx value. -/
def decodeTx (j : Json) : Option Tx :=
  match j with
  | .jobj fields => do
    let id ← getStr fields "id"
    let ty ← strToTxType (← getStr fields "type")
    let account ← strToAccount (← getStr fields "account")
    let date ← getStr fields "date"
    let time ← getStr fields "time"
    let amount ← getNum fields "amount"
    let category ← getStr fields "category"
    let subcategory ← getStr fields "subcategory"
    pure ⟨id, ty, account, getStr fields "toAccount", date, time, amount,
      category, subcategory, getStr fields "note"⟩
  | _ => none

/-- The tag taxonomy as an insertion-ordered object: category name to
subcategory list. -/
def Tags : Type := List (String × List String)

/-- JSON.stringify of the tag taxonomy. -/
def encodeTags (tg : Tags) : Json :=
  .jobj (tg.map fun kv => (kv.1, .jarr (kv.2.map .jstr)))

/-- Reading a parsed list of string values. -/
def decodeStrs : List Json → Option (List String)
  | [] => some []
  | .jstr s :: rest =>
    match decodeStrs rest with
    | some l => some (s :: l)
    | none => none
  | _ => none

/-- Reading a parsed array of strings. -/
def decodeStrList (j : Json) : Option (List String) :=
  match j with
  | .jarr l => decodeStrs l
  | _ => none

/-- Reading the parsed taxonomy entries. -/
def decodeTagPairs : List (String × Json) → Option Tags
  | [] => some []
  | (k, v) :: rest =>
    match decodeStrList v, decodeTagPairs rest with
    | some subs, some tg => some ((k, subs) :: tg)
    | _, _ => none

/-- Reading the parsed taxonomy object. -/
def decodeTags (j : Json) : Option Tags :=
  match j with
  | .jobj fields => decodeTagPairs fields
  | _ => none

/-- Reading a parsed array of record objects. -/
def decodeTxs : List Json → Option (List Tx)
  | [] => some []
  | j :: rest =>
    match decodeTx j, decodeTxs rest with
    | some t, some ts => some (t :: ts)
    | _, _ => none

/-- JSON.stringify of the budget object. -/
def encodeBudget (b : Budget) : Json :=
  .jobj [("basicos", .jnum b.basicos), ("deseos", .jnum b.deseos),
    ("ahorro", .jnum b.ahorro)]

/-- Reading the parsed budget object. -/
def decodeBudget (j : Json) : Option Budget :=
  match j with
  | .jobj fields => do
    pure ⟨← getNum fields "basicos", ← getNum fields "deseos",
      ← getNum fields "ahorro"⟩
  | _ => none

/-- The local state the interchange covers. -/
structure AppState where
  tx : List Tx
  tags : Tags
  budget : Budget

/-- onExport, App.tsx lines 1513-1524: one document with the three
fields tx, tags, budget. -/
def exportDoc (s : AppState) : Json :=
  .jobj [("tx", .jarr (s.tx.map encodeTx)), ("tags", encodeTags s.tags),
    ("budget", encodeBudget s.budget)]

/-- JS truthiness of a parsed JSON value (objects and arrays are always
truthy). -/
def jsTruthy (j : Json) : Bool :=
  match j with
  | .jnull => false
  | .jbool b => b
  | .jnum q => q != 0
  | .jstr s => s != ""
  | .jarr _ => true
  | .jobj _ => true

/-- onImportChange, App.tsx lines 1586-1595: each of the three state
slices is wholesale replaced when its field passes its guard
(Array.isArray for tx, truthiness for tags and budget); a missing or
ill-shaped field leaves that slice untouched.  Reading the parsed data
back into typed state goes through the decoders; a record array whose
decoding fails would be ill-typed data the claims never produce. -/
def importDoc (j : Json) (s : AppState) : AppState :=
  match j with
  | .jobj fields =>
    let s :=
      match alFind fields "tx" with
      | some (.jarr l) =>
        match decodeTxs l with
        | some txs => { s with tx := txs }
        | none => s
      | _ => s
    let s :=
      match alFind fields "tags" with
      | some jt =>
        if jsTruthy jt then
          match decodeTags jt with
          | some tg => { s with tags := tg }
          | none => s
        else s
      | _ => s
    let s :=
      match alFind fields "budget" with
      | some jb =>
        if jsTruthy jb then
          match decodeBudget jb with
          | some b => { s with budget := b }
          | none => s
        else s
      | _ => s
    s
  | _ => s

/-- The value of an association-list entry, absent keys reading as zero. -/
def valAt {β : Type} [Zero β] (l : List (String × β)) (k : String) : β :=
  (alFind l k).getD 0

/-! ## Helper lemmas -/

theorem sum_map_add {α : Type} (l : List α) (f g : α → ℚ) :
    (l.map fun x => f x + g x).sum = (l.map f).sum + (l.map g).sum := by
  induction l with
  | nil => simp
  | cons x xs ih => simp [ih]; ring

theorem sum_map_ite (l : List Tx) (q : Tx → Prop) [DecidablePred q] (f : Tx → ℚ) :
    (l.map fun x => if q x then f x else 0).sum = ((l.filter fun x => q x).map f).sum := by
  induction l with
  | nil => simp
  | cons x xs ih =>
    by_cases h : q x <;> simp [h, ih]

theorem sum_filter_split (l : List Tx) (p : Tx → Prop) [DecidablePred p] (f : Tx → ℚ) :
    ((l.filter fun t => p t).map f).sum + ((l.filter fun t => ¬ p t).map f).sum
      = (l.map f).sum := by
  induction l with
  | nil => simp
  | cons x xs ih =>
    by_cases h : p x <;> simp [h, ← ih] <;> ring

theorem byAccountAllTime_foldl (txs : List Tx) (g : Account → ℚ) (a : Account) :
    (txs.foldl (fun m t => fun a' => if a' = t.account then m a' + t.amount else m a') g) a
      = g a + ((txs.filter fun t => t.account = a).map Tx.amount).sum := by
  induction txs generalizing g with
  | nil => simp
  | cons t ts ih =>
    simp only [List.foldl_cons, List.filter_cons]
    rw [ih]
    by_cases h : t.account = a
    · simp [h, add_assoc]
    · have h' : ¬ a = t.account := fun hh => h hh.symm
      simp [h, h']

theorem byAccountAllTime_eq (txs : List Tx) (a : Account) :
    byAccountAllTime txs a = ((txs.filter fun t => t.account = a).map Tx.amount).sum := by
  have h := byAccountAllTime_foldl txs (fun _ => 0) a
  simpa [byAccountAllTime] using h

theorem accounts_sum_ite (t : Tx) :
    (ACCOUNTS.map fun a => if t.account = a then t.amount else 0).sum = t.amount := by
  cases h : t.account <;> simp [ACCOUNTS, h]

theorem sum_over_accounts (txs : List Tx) :
    (ACCOUNTS.map fun a => ((txs.filter fun t => t.account = a).map Tx.amount).sum).sum
      = (txs.map Tx.amount).sum := by
  induction txs with
  | nil => simp
  | cons t ts ih =>
    have step : ∀ a : Account,
        (((t :: ts).filter fun x => x.account = a).map Tx.amount).sum
          = (if t.account = a then t.amount else 0)
            + ((ts.filter fun x => x.account = a).map Tx.amount).sum := by
      intro a
      by_cases h : t.account = a <;> simp [List.filter_cons, h]
    calc (ACCOUNTS.map fun a => (((t :: ts).filter fun x => x.account = a).map Tx.amount).sum).sum
        = (ACCOUNTS.map fun a => (if t.account = a then t.amount else 0)
            + ((ts.filter fun x => x.account = a).map Tx.amount).sum).sum := by
          simp only [step]
      _ = (ACCOUNTS.map fun a => if t.account = a then t.amount else 0).sum
            + (ACCOUNTS.map fun a => ((ts.filter fun x => x.account = a).map Tx.amount).sum).sum :=
          sum_map_add ACCOUNTS _ _
      _ = t.amount + (ts.map Tx.amount).sum := by
          rw [accounts_sum_ite, ih]
      _ = ((t :: ts).map Tx.amount).sum := by simp

theorem saldoActual_eq (txs : List Tx) :
    saldoActual txs
      = ((txs.filter fun t => ¬ t.account = Account.tcRappi).map Tx.amount).sum := by
  have hmap : ACCOUNTS.map (byAccountAllTime txs)
      = ACCOUNTS.map fun a => ((txs.filter fun t => t.account = a).map Tx.amount).sum := by
    apply List.map_congr_left
    intro a _
    exact byAccountAllTime_eq txs a
  have hsplit := sum_filter_split txs (fun t => t.account = Account.tcRappi) Tx.amount
  rw [saldoActual, hmap, sum_over_accounts, byAccountAllTime_eq txs .tcRappi]
  linarith

theorem totals_foldl (l : List Tx) (acc : Totals) :
    (l.foldl totalsStep acc).ingresos
        = acc.ingresos + (l.map fun t =>
            if t.type = .ingreso ∧ accountName t.account ≠ "TC Rappi" then t.amount else 0).sum ∧
    (l.foldl totalsStep acc).gastos
        = acc.gastos + (l.map fun t => if t.type = .gasto then |t.amount| else 0).sum := by
  induction l generalizing acc with
  | nil => simp
  | cons t ts ih =>
    have h := ih (totalsStep acc t)
    simp only [List.foldl_cons, List.map_cons, List.sum_cons] at h ⊢
    refine ⟨?_, ?_⟩
    · rw [h.1]; simp [totalsStep]; ring
    · rw [h.2]; simp [totalsStep]; ring

theorem valAt_bumpAL {β : Type} [AddMonoid β] (l : List (String × β)) (k k' : String)
    (c : β) :
    valAt (bumpAL l k c) k' = valAt l k' + if k' = k then c else 0 := by
  induction l with
  | nil =>
    by_cases h : k = k'
    · subst h
      simp [bumpAL, valAt, alFind]
    · have h' : ¬ k' = k := fun hh => h hh.symm
      simp [bumpAL, valAt, alFind, h, h']
  | cons kv rest ih =>
    obtain ⟨k1, v1⟩ := kv
    by_cases hk : k1 = k
    · subst hk
      by_cases h2 : k1 = k'
      · subst h2
        simp [bumpAL, valAt, alFind, add_assoc]
      · have h' : ¬ k' = k1 := fun hh => h2 hh.symm
        simp [bumpAL, valAt, alFind, h2, h']
    · by_cases h2 : k1 = k'
      · subst h2
        simp [bumpAL, valAt, alFind, hk]
      · have h3 := ih
        simp only [valAt] at h3
        simp [bumpAL, valAt, alFind, hk, h2, h3]

theorem valAt_foldl_bump {β : Type} [AddCommMonoid β] (l : List Tx)
    (key : Tx → String) (contrib : Tx → β) (init : List (String × β)) (k : String) :
    valAt (l.foldl (fun acc t => bumpAL acc (key t) (contrib t)) init) k
      = valAt init k + ((l.filter fun t => key t = k).map contrib).sum := by
  induction l generalizing init with
  | nil => simp
  | cons t ts ih =>
    simp only [List.foldl_cons, List.filter_cons]
    rw [ih]
    rw [valAt_bumpAL]
    by_cases h : key t = k
    · simp [h, add_assoc]
    · have h' : ¬ k = key t := fun hh => h hh.symm
      simp [h, h']

theorem keys_bumpAL {β : Type} [Add β] (l : List (String × β)) (k : String) (c : β) :
    (bumpAL l k c).map Prod.fst = l.map Prod.fst ∨
    (bumpAL l k c).map Prod.fst = l.map Prod.fst ++ [k] := by
  induction l with
  | nil => right; simp [bumpAL]
  | cons kv rest ih =>
    by_cases h : kv.1 = k
    · left; simp [bumpAL, h]
    · rcases ih with h1 | h1
      · left; simp [bumpAL, h, h1]
      · right; simp [bumpAL, h, h1]

theorem find_eq_of_mem_keysNodup {β : Type} (l : List (String × β)) (k : String) (v : β)
    (hmem : (k, v) ∈ l) (hnd : (l.map Prod.fst).Nodup) : alFind l k = some v := by
  induction l with
  | nil => simp at hmem
  | cons kv rest ih =>
    simp only [List.map_cons, List.nodup_cons] at hnd
    rcases List.mem_cons.mp hmem with h | h
    · simp [alFind, ← h]
    · have hne : ¬ kv.1 = k := by
        intro hh
        exact hnd.1 (hh ▸ (List.mem_map.mpr ⟨(k, v), h, rfl⟩))
      simp [alFind, hne, ih h hnd.2]

theorem nodup_keys_bumpAL {β : Type} [Add β] (l : List (String × β)) (k : String) (c : β) :
    (l.map Prod.fst).Nodup → ((bumpAL l k c).map Prod.fst).Nodup := by
  induction l with
  | nil =>
    intro _
    simp [bumpAL]
  | cons kv rest ih =>
    intro hnd
    obtain ⟨k1, v1⟩ := kv
    simp only [List.map_cons, List.nodup_cons] at hnd
    by_cases h : k1 = k
    · subst h
      have hb : bumpAL ((k1, v1) :: rest) k1 c = (k1, v1 + c) :: rest := by
        simp [bumpAL]
      rw [hb]
      simp only [List.map_cons, List.nodup_cons]
      exact ⟨hnd.1, hnd.2⟩
    · simp only [bumpAL, if_neg h, List.map_cons, List.nodup_cons]
      refine ⟨?_, ih hnd.2⟩
      intro hmem
      rcases keys_bumpAL rest k c with h1 | h1
      · exact hnd.1 (h1 ▸ hmem)
      · rw [h1] at hmem
        rcases List.mem_append.mp hmem with h2 | h2
        · exact hnd.1 h2
        · exact h (List.mem_singleton.mp h2)

theorem nodup_keys_foldl_bump {β : Type} [Add β] (l : List Tx) (key : Tx → String)
    (contrib : Tx → β) (init : List (String × β)) :
    (init.map Prod.fst).Nodup →
    (((l.foldl (fun acc t => bumpAL acc (key t) (contrib t)) init)).map Prod.fst).Nodup := by
  induction l generalizing init with
  | nil => exact fun hnd => hnd
  | cons t ts ih => exact fun hnd => ih _ (nodup_keys_bumpAL _ _ _ hnd)

theorem totals_parts_eq (txs : List Tx) (month : String) :
    (totals txs month).ingresos
        = (((txOfMonth txs month).filter fun t =>
              t.type = .ingreso ∧ accountName t.account ≠ "TC Rappi").map Tx.amount).sum ∧
    (totals txs month).gastos
        = (((txOfMonth txs month).filter fun t => t.type = .gasto).map
            fun t => |t.amount|).sum := by
  have htot := totals_foldl (txOfMonth txs month) ⟨0, 0, 0⟩
  constructor
  · have h1 := htot.1
    rw [sum_map_ite] at h1
    simpa [totals] using h1
  · have h2 := htot.2
    rw [sum_map_ite] at h2
    simpa [totals] using h2

theorem mem_insertByKeyAsc {β : Type} (x a : String × β) (l : List (String × β)) :
    a ∈ insertByKeyAsc x l ↔ a = x ∨ a ∈ l := by
  induction l with
  | nil => simp [insertByKeyAsc]
  | cons y t ih =>
    by_cases h : x.1 < y.1
    · simp [insertByKeyAsc, h]
    · simp only [insertByKeyAsc, if_neg h, List.mem_cons, ih]
      tauto

theorem mem_sortByKeyAsc {β : Type} (l : List (String × β)) (a : String × β) :
    a ∈ sortByKeyAsc l ↔ a ∈ l := by
  have main : ∀ (l acc : List (String × β)),
      a ∈ l.foldl (fun acc x => insertByKeyAsc x acc) acc ↔ a ∈ acc ∨ a ∈ l := by
    intro l
    induction l with
    | nil => simp
    | cons x t ih =>
      intro acc
      simp only [List.foldl_cons, ih, mem_insertByKeyAsc, List.mem_cons]
      tauto
  simpa [sortByKeyAsc] using main l []

/-- C4: the monthly income total sums amounts of that month's Income
records outside the credit-card account TC Rappi, the expense total sums
absolute amounts of Expense records, and every entry of the byMonth time
series satisfies the same two equations (with the same TC Rappi
exclusion). -/
theorem C4_monthly_totals_exclusion (txs : List Tx) (month : String) :
    (totals txs month).ingresos
        = (((txOfMonth txs month).filter fun t =>
              t.type = .ingreso ∧ accountName t.account ≠ "TC Rappi").map Tx.amount).sum ∧
    (totals txs month).gastos
        = (((txOfMonth txs month).filter fun t => t.type = .gasto).map
            fun t => |t.amount|).sum ∧
    (∀ m p, (m, p) ∈ byMonth txs →
      p.1 = (((txOfMonth txs m).filter fun t =>
              t.type = .ingreso ∧ accountName t.account ≠ "TC Rappi").map Tx.amount).sum ∧
      p.2 = (((txOfMonth txs m).filter fun t => t.type = .gasto).map
              fun t => |t.amount|).sum) := by
  refine ⟨(totals_parts_eq txs month).1, (totals_parts_eq txs month).2, ?_⟩
  · intro m p hmem
    have h1 : (m, p) ∈ byMonthFold txs := by
      have := List.drop_subset _ _ hmem
      exact (mem_sortByKeyAsc _ _).mp this
    have hnd : ((byMonthFold txs).map Prod.fst).Nodup :=
      nodup_keys_foldl_bump txs monthOf byMonthContrib [] (by simp)
    have hfind : alFind (byMonthFold txs) m = some p :=
      find_eq_of_mem_keysNodup _ _ _ h1 hnd
    have hval : valAt (byMonthFold txs) m
        = ((txs.filter fun t => monthOf t = m).map byMonthContrib).sum := by
      have := valAt_foldl_bump txs monthOf byMonthContrib [] m
      simpa [byMonthFold, valAt, alFind] using this
    have hp : p = ((txs.filter fun t => monthOf t = m).map byMonthContrib).sum := by
      rw [← hval, valAt, hfind]
      rfl
    have hfst : p.1 = ((txs.filter fun t => monthOf t = m).map
        fun t => (byMonthContrib t).1).sum := by
      rw [hp]
      induction (txs.filter fun t => monthOf t = m) with
      | nil => simp
      | cons x xs ihx => simp [ihx]
    have hsnd : p.2 = ((txs.filter fun t => monthOf t = m).map
        fun t => (byMonthContrib t).2).sum := by
      rw [hp]
      induction (txs.filter fun t => monthOf t = m) with
      | nil => simp
      | cons x xs ihx => simp [ihx]
    constructor
    · rw [hfst]
      simp only [txOfMonth]
      rw [← sum_map_ite (txs.filter fun t => monthOf t = m)
            (fun t => t.type = .ingreso ∧ accountName t.account ≠ "TC Rappi") Tx.amount]
      apply congrArg List.sum
      apply List.map_congr_left
      intro t _
      simp [byMonthContrib]
    · rw [hsnd]
      simp only [txOfMonth]
      rw [← sum_map_ite (txs.filter fun t => monthOf t = m)
            (fun t => t.type = .gasto) (fun t => |t.amount|)]
      apply congrArg List.sum
      apply List.map_congr_left
      intro t _
      simp [byMonthContrib]

/-- C3: each account balance is the all-time sum of amounts recorded
against the account, with no month restriction, and the overall balance
sums every account balance except the credit-card account TC Rappi; on
the spec's example list (TC card 500, cash 300) the overall balance
is 300. -/
theorem C3_overall_balance_excludes_credit_card (txs : List Tx) :
    (∀ a : Account, byAccountAllTime txs a
        = ((txs.filter fun t => t.account = a).map Tx.amount).sum) ∧
    saldoActual txs
      = ((ACCOUNTS.filter fun a => ¬ a = Account.tcRappi).map (byAccountAllTime txs)).sum ∧
    saldoActual txs
      = ((txs.filter fun t => ¬ t.account = Account.tcRappi).map Tx.amount).sum ∧
    saldoActual
      [⟨"a", .ingreso, .tcRappi, none, "2025-01-01", "00:00:00", 500, "", "", none⟩,
       ⟨"b", .ingreso, .efectivo, none, "2025-01-01", "00:00:00", 300, "", "", none⟩]
      = 300 := by
  refine ⟨byAccountAllTime_eq txs, ?_, saldoActual_eq txs, by
    rw [saldoActual_eq]
    simp [List.filter]⟩
  have : (ACCOUNTS.filter fun a => ¬ a = Account.tcRappi).map (byAccountAllTime txs)
      = [byAccountAllTime txs .davivienda, byAccountAllTime txs .bogota,
         byAccountAllTime txs .nequi, byAccountAllTime txs .rappi,
         byAccountAllTime txs .efectivo] := by
    simp [ACCOUNTS]
  rw [this, saldoActual]
  simp [ACCOUNTS]
  ring

theorem eval_toNumber_100 : toNumberFromRaw "100" = 100 := by
  simp [toNumberFromRaw, normalizeMoneyInput, cleanMoney, dropEarlyCommas, dropGroupDots,
    splitOnChar, jsNumber, replaceFirstComma, natFromDigits, digitVal, jsIsDigit, jsIsSpace,
    keepMoneyChar, groupDotLookahead, List.filter, List.all, List.head?, List.tail,
    List.contains]

/-- C5: a valid transfer request (distinct accounts, nonzero parsed
amount) prepends exactly two Transfer records with opposite-signed
equal-magnitude amounts (negative on the source, positive on the
destination), mutually-referencing toAccount fields and identical date
and time, leaving every existing record untouched. -/
theorem C5_transfer_creates_linked_pair (id1 id2 time : String) (trf : TrfForm)
    (txs : List Tx) (hneq : trf.fromA ≠ trf.toA)
    (hamt : toNumberFromRaw trf.amountRaw ≠ 0) :
    ∃ outTx incTx : Tx,
      handleTransfer id1 id2 time trf txs = outTx :: incTx :: txs ∧
      outTx.type = .transferencia ∧ incTx.type = .transferencia ∧
      outTx.amount = -|toNumberFromRaw trf.amountRaw| ∧
      incTx.amount = |toNumberFromRaw trf.amountRaw| ∧
      outTx.amount = -incTx.amount ∧
      outTx.account = trf.fromA ∧ incTx.account = trf.toA ∧
      outTx.toAccount = some (accountName incTx.account) ∧
      incTx.toAccount = some (accountName outTx.account) ∧
      outTx.date = trf.date ∧ incTx.date = trf.date ∧
      outTx.time = time ∧ incTx.time = time := by
  have h2 : ¬ |toNumberFromRaw trf.amountRaw| = 0 := by
    simpa [abs_eq_zero] using hamt
  refine ⟨⟨id1, .transferencia, trf.fromA, some (accountName trf.toA), trf.date, time,
      -|toNumberFromRaw trf.amountRaw|, "Ingresos", "Entre cuentas", some ""⟩,
    ⟨id2, .transferencia, trf.toA, some (accountName trf.fromA), trf.date, time,
      |toNumberFromRaw trf.amountRaw|, "Ingresos", "Entre cuentas", some ""⟩,
    ?_, rfl, rfl, rfl, rfl, by simp, rfl, rfl, rfl, rfl, rfl, rfl, rfl, rfl⟩
  simp only [handleTransfer, if_neg hneq, if_neg h2]

/-- Witness for C5 at a concrete valid transfer. -/
theorem C5_transfer_creates_linked_pair_witness :
    ∃ outTx incTx : Tx,
      handleTransfer "t1" "t2" "12:00:00"
          ⟨.nequi, .efectivo, "2025-01-02", "100"⟩ [] = outTx :: incTx :: [] ∧
      outTx.type = .transferencia ∧ incTx.type = .transferencia ∧
      outTx.amount = -|toNumberFromRaw "100"| ∧
      incTx.amount = |toNumberFromRaw "100"| ∧
      outTx.amount = -incTx.amount ∧
      outTx.account = Account.nequi ∧ incTx.account = Account.efectivo ∧
      outTx.toAccount = some (accountName incTx.account) ∧
      incTx.toAccount = some (accountName outTx.account) ∧
      outTx.date = "2025-01-02" ∧ incTx.date = "2025-01-02" ∧
      outTx.time = "12:00:00" ∧ incTx.time = "12:00:00" :=
  C5_transfer_creates_linked_pair "t1" "t2" "12:00:00"
    ⟨.nequi, .efectivo, "2025-01-02", "100"⟩ [] (by decide)
    (by rw [eval_toNumber_100]; norm_num)

/-- C6: an invalid transfer request (zero parsed amount or identical
source and destination) is rejected silently: handleTransfer returns the
record list unchanged, creating no half-transfer. -/
theorem C6_invalid_transfer_rejected (id1 id2 time : String) (trf : TrfForm)
    (txs : List Tx)
    (h : trf.fromA = trf.toA ∨ toNumberFromRaw trf.amountRaw = 0) :
    handleTransfer id1 id2 time trf txs = txs := by
  rcases h with h | h
  · simp [handleTransfer, h]
  · by_cases heq : trf.fromA = trf.toA
    · simp [handleTransfer, heq]
    · simp [handleTransfer, heq, h]

/-- Witness for C6 at a concrete same-account transfer request. -/
theorem C6_invalid_transfer_rejected_witness :
    handleTransfer "t1" "t2" "12:00:00"
        ⟨.nequi, .nequi, "2025-01-02", "100"⟩
        [⟨"a", .ingreso, .efectivo, none, "2025-01-01", "00:00:00", 300, "", "", none⟩]
      = [⟨"a", .ingreso, .efectivo, none, "2025-01-01", "00:00:00", 300, "", "", none⟩] :=
  C6_invalid_transfer_rejected "t1" "t2" "12:00:00" _ _ (Or.inl rfl)

theorem map_id_filter (p : String → Bool) (txs : List Tx) :
    (txs.filter fun t => p t.id).map Tx.id = (txs.map Tx.id).filter p := by
  induction txs with
  | nil => rfl
  | cons t ts ih =>
    by_cases hm : p t.id <;> simp [List.filter_cons, hm, ih]

/-- C9: no record store mutation regenerates a surviving record's id —
editing maps ids to themselves, deletion only removes ids, and the two
prepending operations add their freshly-generated ids in front of the
unchanged ids of the existing records. -/
theorem C9_record_ids_stable (f : SaveForm) (editing : Tx) (txs : List Tx)
    (sel : List String) (id1 id2 fresh time : String) (trf : TrfForm) :
    (handleSaveEdit f editing txs).map Tx.id = txs.map Tx.id ∧
    ((deleteSelected sel txs).map Tx.id = txs.map Tx.id ∨
      (deleteSelected sel txs).map Tx.id
        = (txs.map Tx.id).filter fun i => ! sel.contains i) ∧
    ((handleSaveNew fresh time f txs).map Tx.id = txs.map Tx.id ∨
      (handleSaveNew fresh time f txs).map Tx.id = fresh :: txs.map Tx.id) ∧
    ((handleTransfer id1 id2 time trf txs).map Tx.id = txs.map Tx.id ∨
      (handleTransfer id1 id2 time trf txs).map Tx.id = id1 :: id2 :: txs.map Tx.id) := by
  refine ⟨?_, ?_, ?_, ?_⟩
  · by_cases h0 : toNumberFromRaw f.amountRaw = 0
    · simp [handleSaveEdit, h0]
    · simp only [handleSaveEdit, if_neg h0, List.map_map]
      apply List.map_congr_left
      intro t _
      by_cases ht : t.id = editing.id <;> simp [Function.comp, ht]
  · by_cases h0 : sel = []
    · left
      simp [deleteSelected, h0]
    · right
      simp only [deleteSelected, if_neg h0]
      exact map_id_filter (fun i => ! sel.contains i) txs
  · by_cases h0 : toNumberFromRaw f.amountRaw = 0
    · left
      simp [handleSaveNew, h0]
    · right
      simp [handleSaveNew, h0]
  · by_cases h1 : trf.fromA = trf.toA
    · left
      simp [handleTransfer, h1]
    · by_cases h2 : |toNumberFromRaw trf.amountRaw| = 0
      · left
        simp [handleTransfer, h1, h2]
      · right
        simp [handleTransfer, h1, h2]

theorem accountName_ne_todas (a : Account) : accountName a ≠ "Todas" := by
  cases a <;> simp [accountName]

theorem filter_account_todas_nil (l : List Tx) :
    (l.filter fun t => accountName t.account = ("Todas" : String)) = [] := by
  rw [List.filter_eq_nil_iff]
  intro t _
  simpa using accountName_ne_todas t.account

/-- C10: the account-filter UI (option list and reset action) uses the
sentinel Todas while the pipeline recognises only Todos as the no-filter
sentinel (its initial state), so once the filter holds the string Todas
the pipeline performs an exact account match against Todas, which no
account name equals: the filtered list is always empty. -/
theorem C10_todos_todas_sentinel_mismatch :
    "Todas" ∈ filterAccountOptions ∧
    limpiarFilterAccount = "Todas" ∧
    initialTableFilters.filterAccount = "Todos" ∧
    (∀ a : Account, accountName a ≠ "Todas") ∧
    (∀ (txs : List Tx) (fl : TableFilters),
      filteredSorted txs { fl with filterAccount := "Todas" } = []) := by
  refine ⟨by simp [filterAccountOptions], rfl, rfl, accountName_ne_todas, ?_⟩
  intro txs fl
  simp [filteredSorted, filter_account_todas_nil, sortTxs]

theorem insertTx_length (sortKey sortDir : String) (x : Tx) (l : List Tx) :
    (insertTx sortKey sortDir x l).length = l.length + 1 := by
  induction l with
  | nil => rfl
  | cons y t ih =>
    by_cases h : sortsBefore sortKey sortDir x y <;> simp [insertTx, h, ih]

theorem sortTxs_length (sortKey sortDir : String) (l : List Tx) :
    (sortTxs sortKey sortDir l).length = l.length := by
  have main : ∀ (l acc : List Tx),
      (l.foldl (fun acc x => insertTx sortKey sortDir x acc) acc).length
        = acc.length + l.length := by
    intro l
    induction l with
    | nil => simp
    | cons x t ih =>
      intro acc
      rw [List.foldl_cons, ih, insertTx_length, List.length_cons]
      omega
  simpa [sortTxs] using main l []

theorem filteredSorted_initial (txs : List Tx) :
    filteredSorted txs initialTableFilters = sortTxs "fecha" "Desc" txs := by
  simp [filteredSorted, initialTableFilters]

theorem filteredSorted_typeOnly (txs : List Tx) (v : String) (hv : v ≠ "Todos") :
    filteredSorted txs { initialTableFilters with filterType := v }
      = sortTxs "fecha" "Desc" (txs.filter fun t => typeName t.type = v) := by
  simp [filteredSorted, initialTableFilters, hv]

/-- C2 counterexample: after three forward clicks over 35 filtered
records the page index is 4; shrinking the filtered set to 25 records
(page count 3) leaves the page index at 4 — no clamping happens on a
size change, the claimed clamp to page 3 does not occur, and the shown
page of rows is empty. -/
theorem C2_counterexample :
    c2FinalState.page = 4 ∧ pageCount c2FinalState = 3 ∧
    ¬ c2FinalState.page ≤ pageCount c2FinalState ∧ pageRows c2FinalState = [] := by
  decide

/-- C2 (amended): the page count is max(1, ceil(len/10)) — 3 for 25
records — and the page index is clamped into [1, pageCount] only by the
navigation handlers (forward lands in [1, pageCount], backward stays
at least 1); a filter-parameter change leaves the page index untouched,
so after the filtered set shrinks the page index can exceed the page
count, in which case the shown rows are empty; the rows shown are always
drawn from the filtered list. -/
theorem C2_pagination_amended (s : TableState) (v : String) :
    pageCountLen 25 = 3 ∧
    1 ≤ (clickNext s).page ∧
    (clickNext s).page ≤ pageCount s ∧
    1 ≤ (clickPrev s).page ∧
    (setFilterTypeEvt v s).page = s.page ∧
    (setFilterAccountEvt v s).page = s.page ∧
    (∀ r ∈ pageRows s, r ∈ filteredSorted s.tx s.filters) := by
  refine ⟨by decide, ?_, ?_, ?_, rfl, rfl, ?_⟩
  · have h1 : 1 ≤ pageCount s := le_max_left 1 _
    have h2 : 1 ≤ s.page + 1 := by omega
    exact le_min h1 h2
  · exact min_le_left _ _
  · exact le_max_left 1 _
  · intro r hr
    exact List.drop_subset _ _ (List.take_subset _ _ hr)

/-- Witness for C2 (amended) at the concrete pagination scenario. -/
theorem C2_pagination_amended_witness :
    pageCountLen 25 = 3 ∧
    sampleGasto ∈ filteredSorted txC2 initialTableFilters :=
  ⟨(C2_pagination_amended ⟨txC2, initialTableFilters, 1⟩ "Gasto").1,
    (C2_pagination_amended ⟨txC2, initialTableFilters, 1⟩ "Gasto").2.2.2.2.2.2
      sampleGasto (by decide)⟩

theorem mem_insertByValDesc (x a : String × ℚ) (l : List (String × ℚ)) :
    a ∈ insertByValDesc x l ↔ a = x ∨ a ∈ l := by
  induction l with
  | nil => simp [insertByValDesc]
  | cons y t ih =>
    by_cases h : x.2 > y.2
    · simp [insertByValDesc, h]
    · simp only [insertByValDesc, if_neg h, List.mem_cons, ih]
      tauto

theorem mem_sortByValDesc (l : List (String × ℚ)) (a : String × ℚ) :
    a ∈ sortByValDesc l ↔ a ∈ l := by
  have main : ∀ (l acc : List (String × ℚ)),
      a ∈ l.foldl (fun acc x => insertByValDesc x acc) acc ↔ a ∈ acc ∨ a ∈ l := by
    intro l
    induction l with
    | nil => simp
    | cons x t ih =>
      intro acc
      simp only [List.foldl_cons, ih, mem_insertByValDesc, List.mem_cons]
      tauto
  simpa [sortByValDesc] using main l []

theorem pairwise_insertByValDesc (x : String × ℚ) (l : List (String × ℚ))
    (h : l.Pairwise fun a b => b.2 ≤ a.2) :
    (insertByValDesc x l).Pairwise fun a b => b.2 ≤ a.2 := by
  induction l with
  | nil => simp [insertByValDesc]
  | cons y t ih =>
    rcases List.pairwise_cons.mp h with ⟨hy, ht⟩
    by_cases hxy : x.2 > y.2
    · simp only [insertByValDesc, if_pos hxy]
      refine List.pairwise_cons.mpr ⟨?_, h⟩
      intro b hb
      rcases List.mem_cons.mp hb with rfl | hb
      · exact le_of_lt hxy
      · exact le_trans (hy b hb) (le_of_lt hxy)
    · simp only [insertByValDesc, if_neg hxy]
      refine List.pairwise_cons.mpr ⟨?_, ih ht⟩
      intro b hb
      rcases (mem_insertByValDesc x b t).mp hb with rfl | hb
      · exact not_lt.mp hxy
      · exact hy b hb

theorem pairwise_sortByValDesc (l : List (String × ℚ)) :
    (sortByValDesc l).Pairwise fun a b => b.2 ≤ a.2 := by
  have main : ∀ (l acc : List (String × ℚ)), acc.Pairwise (fun a b => b.2 ≤ a.2) →
      (l.foldl (fun acc x => insertByValDesc x acc) acc).Pairwise
        fun a b => b.2 ≤ a.2 := by
    intro l
    induction l with
    | nil => exact fun acc h => h
    | cons x t ih => exact fun acc h => ih _ (pairwise_insertByValDesc x acc h)
  exact main l [] List.Pairwise.nil

theorem bumpAL_ne_nil {β : Type} [Add β] (l : List (String × β)) (k : String) (c : β) :
    bumpAL l k c ≠ [] := by
  cases l with
  | nil => simp [bumpAL]
  | cons kv rest =>
    obtain ⟨k1, v1⟩ := kv
    by_cases h : k1 = k <;> simp [bumpAL, h]

theorem foldl_bump_nil_iff {β : Type} [Add β] (l : List Tx) (key : Tx → String)
    (contrib : Tx → β) (acc : List (String × β)) :
    l.foldl (fun acc t => bumpAL acc (key t) (contrib t)) acc = [] ↔
      acc = [] ∧ l = [] := by
  induction l generalizing acc with
  | nil => simp
  | cons t ts ih =>
    simp only [List.foldl_cons, ih]
    constructor
    · rintro ⟨h1, -⟩
      exact absurd h1 (bumpAL_ne_nil acc (key t) (contrib t))
    · rintro ⟨-, h2⟩
      exact absurd h2 (by simp)

theorem chartBase_nil (view : ChartView) (selCat : String) :
    chartBase view [] selCat = [] := by
  cases view <;> rfl

/-- C7: the grouped breakdown is never empty: it is the per-key
absolute-amount sums over the matching expense records, sorted by
descending total, and when no expense record matches the filters it is
exactly the single placeholder entry with value 0. -/
theorem C7_breakdown_never_empty (txs : List Tx) (fromD toD accF selCat : String)
    (view : ChartView) :
    analyticsData view (txForCharts txs fromD toD accF) selCat ≠ [] ∧
    (txForCharts txs fromD toD accF = [] →
      analyticsData view (txForCharts txs fromD toD accF) selCat = [("Sin datos", 0)]) ∧
    (analyticsData view (txForCharts txs fromD toD accF) selCat).Pairwise
      (fun a b => b.2 ≤ a.2) ∧
    (∀ kv ∈ analyticsData view (txForCharts txs fromD toD accF) selCat,
      kv.2 = (((chartBase view (txForCharts txs fromD toD accF) selCat).filter
          fun t => chartKey view t = kv.1).map fun t => |t.amount|).sum) := by
  set txF := txForCharts txs fromD toD accF with htxF
  by_cases harr : sortByValDesc (analyticsGroups view txF selCat) = []
  · have hgroups : analyticsGroups view txF selCat = [] := by
      rcases hg : analyticsGroups view txF selCat with _ | ⟨g, gs⟩
      · rfl
      · exfalso
        have : g ∈ sortByValDesc (analyticsGroups view txF selCat) :=
          (mem_sortByValDesc _ g).mpr (by simp [hg])
        rw [harr] at this
        simp at this
    have hbase : chartBase view txF selCat = [] := by
      have := (foldl_bump_nil_iff (chartBase view txF selCat)
        (chartKey view) (fun t => |t.amount|) []).mp hgroups
      exact this.2
    have hdata : analyticsData view txF selCat = [("Sin datos", 0)] := by
      simp [analyticsData, harr]
    refine ⟨by simp [hdata], fun _ => hdata, by simp [hdata], ?_⟩
    intro kv hkv
    rw [hdata] at hkv
    rcases List.mem_singleton.mp hkv with rfl
    simp [hbase]
  · have hdata : analyticsData view txF selCat
        = sortByValDesc (analyticsGroups view txF selCat) := by
      simp [analyticsData, harr]
    refine ⟨by rw [hdata]; exact harr, ?_, ?_, ?_⟩
    · intro hnil
      exfalso
      apply harr
      have : analyticsGroups view txF selCat = [] := by
        rw [analyticsGroups, hnil, chartBase_nil]
        rfl
      rw [this]
      rfl
    · rw [hdata]
      exact pairwise_sortByValDesc _
    · intro kv hkv
      rw [hdata] at hkv
      have hmem : kv ∈ analyticsGroups view txF selCat :=
        (mem_sortByValDesc _ kv).mp hkv
      have hnd : ((analyticsGroups view txF selCat).map Prod.fst).Nodup :=
        nodup_keys_foldl_bump _ _ _ [] (by simp)
      have hfind : alFind (analyticsGroups view txF selCat) kv.1 = some kv.2 := by
        obtain ⟨k, v⟩ := kv
        exact find_eq_of_mem_keysNodup _ _ _ hmem hnd
      have hval := valAt_foldl_bump (chartBase view txF selCat) (chartKey view)
        (fun t => |t.amount|) [] kv.1
      rw [show ((chartBase view txF selCat).foldl
            (fun acc t => bumpAL acc (chartKey view t) |t.amount|) [])
          = analyticsGroups view txF selCat from rfl] at hval
      rw [valAt, hfind] at hval
      simpa [valAt, alFind] using hval

/-- Witness for C7 at a concrete empty expense selection. -/
theorem C7_breakdown_never_empty_witness :
    analyticsData .categoria (txForCharts [] "2025-01-01" "2025-01-31" "Todas") ""
      = [("Sin datos", 0)] ∧
    ("Sin datos", (0 : ℚ)).2
      = (((chartBase .categoria (txForCharts [] "2025-01-01" "2025-01-31" "Todas") "").filter
          fun t => chartKey .categoria t = ("Sin datos", (0 : ℚ)).1).map
            fun t => |t.amount|).sum :=
  ⟨(C7_breakdown_never_empty [] "2025-01-01" "2025-01-31" "Todas" "" .categoria).2.1 rfl,
    (C7_breakdown_never_empty [] "2025-01-01" "2025-01-31" "Todas" "" .categoria).2.2.2
      ("Sin datos", (0 : ℚ))
      (by
        rw [(C7_breakdown_never_empty [] "2025-01-01" "2025-01-31" "Todas" ""
          .categoria).2.1 rfl]
        simp)⟩

theorem strToTxType_typeName (ty : TxType) : strToTxType (typeName ty) = some ty := by
  cases ty <;> rfl

theorem strToAccount_accountName (a : Account) : strToAccount (accountName a) = some a := by
  cases a <;> rfl

theorem decodeTx_encodeTx (t : Tx) : decodeTx (encodeTx t) = some t := by
  obtain ⟨id, ty, account, toAccount, date, time, amount, category, subcategory, note⟩ := t
  cases toAccount <;> cases note <;>
    simp [encodeTx, decodeTx, getStr, getNum, alFind, strToTxType_typeName,
      strToAccount_accountName]

theorem decodeTxs_encode (l : List Tx) : decodeTxs (l.map encodeTx) = some l := by
  induction l with
  | nil => rfl
  | cons t ts ih => simp [decodeTxs, decodeTx_encodeTx, ih]

theorem decodeStrs_encode (l : List String) : decodeStrs (l.map .jstr) = some l := by
  induction l with
  | nil => rfl
  | cons s ss ih => simp [decodeStrs, ih]

theorem decodeTagPairs_encode (tg : Tags) :
    decodeTagPairs (tg.map fun kv => (kv.1, .jarr (kv.2.map .jstr))) = some tg := by
  induction tg with
  | nil => rfl
  | cons kv rest ih =>
    obtain ⟨k, subs⟩ := kv
    simp [decodeTagPairs, decodeStrList, decodeStrs_encode, ih]

theorem decodeTags_encodeTags (tg : Tags) : decodeTags (encodeTags tg) = some tg := by
  simp [decodeTags, encodeTags, decodeTagPairs_encode]

theorem decodeBudget_encodeBudget (b : Budget) : decodeBudget (encodeBudget b) = some b := by
  obtain ⟨x, y, z⟩ := b
  simp [encodeBudget, decodeBudget, getNum, alFind]

/-- C8: exporting produces one JSON document with the fields tx, tags
and budget, and importing that exact document restores a record list,
tag taxonomy and budget equal to the exported ones, whatever local state
the import lands on. -/
theorem C8_export_import_roundtrip (s s' : AppState) :
    exportDoc s = Json.jobj [("tx", Json.jarr (s.tx.map encodeTx)),
      ("tags", encodeTags s.tags), ("budget", encodeBudget s.budget)] ∧
    (importDoc (exportDoc s) s').tx = s.tx ∧
    (importDoc (exportDoc s) s').tags = s.tags ∧
    (importDoc (exportDoc s) s').budget = s.budget := by
  refine ⟨rfl, ?_⟩
  simp [importDoc, exportDoc, alFind, decodeTxs_encode, decodeTags_encodeTags,
    decodeBudget_encodeBudget, jsTruthy, encodeTags, encodeBudget, decodeTags,
    decodeBudget, getNum, decodeTagPairs_encode]

/-! ## Money normalizer roundtrip lemmas -/

theorem digitChar10_toNat (d : ℕ) (hd : d < 10) : (digitChar10 d).toNat = 48 + d := by
  interval_cases d <;> rfl

theorem jsIsDigit_digitChar10 (d : ℕ) (hd : d < 10) : jsIsDigit (digitChar10 d) = true := by
  interval_cases d <;> rfl

theorem digitVal_digitChar10 (d : ℕ) (hd : d < 10) : digitVal (digitChar10 d) = d := by
  rw [digitVal, digitChar10_toNat d hd]
  omega

theorem jsIsDigit_toNat (c : Char) (h : jsIsDigit c = true) :
    48 ≤ c.toNat ∧ c.toNat ≤ 57 := by
  simpa [jsIsDigit, decide_eq_true_eq] using h

theorem jsIsDigit_ne_dot (c : Char) (h : jsIsDigit c = true) : c ≠ '.' := by
  intro hc
  have := jsIsDigit_toNat c h
  rw [hc] at this
  simp at this

theorem jsIsDigit_ne_comma (c : Char) (h : jsIsDigit c = true) : c ≠ ',' := by
  intro hc
  have := jsIsDigit_toNat c h
  rw [hc] at this
  simp at this

theorem jsIsDigit_ne_minus (c : Char) (h : jsIsDigit c = true) : c ≠ '-' := by
  intro hc
  have := jsIsDigit_toNat c h
  rw [hc] at this
  simp at this

theorem jsIsDigit_not_space (c : Char) (h : jsIsDigit c = true) : jsIsSpace c = false := by
  have hb := jsIsDigit_toNat c h
  have hne : ∀ x : Char, x.toNat < 48 → c ≠ x := by
    intro x hx hc
    rw [hc] at hb
    omega
  simp only [jsIsSpace, Bool.or_eq_false_iff, decide_eq_false_iff_not]
  refine ⟨⟨⟨⟨⟨?_, ?_⟩, ?_⟩, ?_⟩, ?_⟩, ?_⟩ <;>
    first
      | exact hne _ (by decide)

theorem keepMoneyChar_of_digit (c : Char) (h : jsIsDigit c = true) :
    keepMoneyChar c = true := by
  simp [keepMoneyChar, h]

theorem foldl_digits (L : List ℕ) (hL : ∀ d ∈ L, d < 10) (a : ℕ) :
    List.foldl (fun acc c => 10 * acc + digitVal c) a ((L.map digitChar10).reverse)
      = a * 10 ^ L.length + Nat.ofDigits 10 L := by
  induction L generalizing a with
  | nil => simp
  | cons d L ih =>
    have hd : d < 10 := hL d (by simp)
    have hL' : ∀ x ∈ L, x < 10 := fun x hx => hL x (by simp [hx])
    rw [List.map_cons, List.reverse_cons, List.foldl_append, ih hL' a]
    simp only [List.foldl_cons, List.foldl_nil, digitVal_digitChar10 d hd,
      Nat.ofDigits_cons, List.length_cons]
    ring

theorem natFromDigits_natDigitsChars (n : ℕ) : natFromDigits (natDigitsChars n) = n := by
  rw [natFromDigits, natDigitsChars,
    foldl_digits _ (fun d hd => Nat.digits_lt_base (by omega) hd) 0]
  simpa using Nat.ofDigits_digits 10 n

theorem natFromDigits_intPartRepr (n : ℕ) : natFromDigits (intPartRepr n) = n := by
  by_cases h : n = 0
  · subst h
    rfl
  · rw [intPartRepr, if_neg h]
    exact natFromDigits_natDigitsChars n

theorem intPartRepr_digits (n : ℕ) : ∀ c ∈ intPartRepr n, jsIsDigit c = true := by
  intro c hc
  by_cases h : n = 0
  · subst h
    simp only [intPartRepr, if_pos rfl] at hc
    rcases List.mem_singleton.mp hc with rfl
    rfl
  · rw [intPartRepr, if_neg h, natDigitsChars] at hc
    rw [List.mem_reverse] at hc
    rcases List.mem_map.mp hc with ⟨d, hd, rfl⟩
    exact jsIsDigit_digitChar10 d (Nat.digits_lt_base (by omega) hd)

theorem intPartRepr_ne_nil (n : ℕ) : intPartRepr n ≠ [] := by
  by_cases h : n = 0
  · subst h
    simp [intPartRepr]
  · rw [intPartRepr, if_neg h, natDigitsChars]
    simp [Nat.digits_ne_nil_iff_ne_zero, h]

theorem twoDigits_digits (d : ℕ) (hd : d < 100) :
    ∀ c ∈ twoDigits d, jsIsDigit c = true := by
  intro c hc
  rcases List.mem_cons.mp hc with rfl | hc
  · exact jsIsDigit_digitChar10 _ (by omega)
  · rcases List.mem_singleton.mp hc with rfl
    exact jsIsDigit_digitChar10 _ (by omega)

theorem natFromDigits_twoDigits (d : ℕ) (hd : d < 100) :
    natFromDigits (twoDigits d) = d := by
  have h1 : d / 10 < 10 := by omega
  have h2 : d % 10 < 10 := by omega
  simp only [natFromDigits, twoDigits, List.foldl_cons, List.foldl_nil,
    digitVal_digitChar10 _ h1, digitVal_digitChar10 _ h2]
  omega

/-- The characters a non-negative rendering consists of: digits, the
grouping dot, the decimal comma. -/
def renderChar (c : Char) : Prop := jsIsDigit c = true ∨ c = '.' ∨ c = ','

theorem group3_chars (l : List Char) (c : Char) (hc : c ∈ group3 l) :
    c ∈ l ∨ c = '.' := by
  induction l with
  | nil => simp [group3] at hc
  | cons x rest ih =>
    by_cases h : (rest.length % 3 = 0 && rest.length != 0) = true
    · rw [group3, if_pos h] at hc
      rcases List.mem_cons.mp hc with rfl | hc
      · exact Or.inl (by simp)
      · rcases List.mem_cons.mp hc with rfl | hc
        · exact Or.inr rfl
        · rcases ih hc with h1 | h1
          · exact Or.inl (by simp [h1])
          · exact Or.inr h1
    · rw [group3, if_neg h] at hc
      rcases List.mem_cons.mp hc with rfl | hc
      · exact Or.inl (by simp)
      · rcases ih hc with h1 | h1
        · exact Or.inl (by simp [h1])
        · exact Or.inr h1

theorem renderChar_not_space (c : Char) (hc : renderChar c) : jsIsSpace c = false := by
  rcases hc with h | h | h
  · exact jsIsDigit_not_space c h
  · subst h
    rfl
  · subst h
    rfl

theorem renderChar_keep (c : Char) (hc : renderChar c) : keepMoneyChar c = true := by
  rcases hc with h | h | h
  · exact keepMoneyChar_of_digit c h
  · subst h
    rfl
  · subst h
    rfl

theorem filter_eq_self_of_all {p : Char → Bool} (l : List Char)
    (h : ∀ c ∈ l, p c = true) : l.filter p = l :=
  List.filter_eq_self.mpr h

theorem dropEarlyCommas_single (l : List Char) (h : l.countP (fun c => c = ',') ≤ 1) :
    dropEarlyCommas l = l := by
  induction l with
  | nil => rfl
  | cons c rest ih =>
    by_cases hc : c = ','
    · subst hc
      have hcount : rest.countP (fun c => c = ',') + 1 ≤ 1 := by
        rw [List.countP_cons] at h
        simpa using h
      have hmem : ',' ∉ rest := by
        intro hcmem
        have h1 : 0 < rest.countP (fun c => c = ',') :=
          List.countP_pos_iff.mpr ⟨',', hcmem, by simp⟩
        omega
      rw [dropEarlyCommas, if_neg (by simp [hmem])]
      rw [ih (by omega)]
    · rw [dropEarlyCommas, if_neg (by simp [hc])]
      have h2 : rest.countP (fun c => c = ',') ≤ 1 := by
        rw [List.countP_cons] at h
        omega
      rw [ih h2]

theorem dropGroupDots_no_dots (l : List Char) (h : ∀ c ∈ l, c ≠ '.') :
    dropGroupDots l = l := by
  induction l with
  | nil => rfl
  | cons c rest ih =>
    rw [dropGroupDots, if_neg (by simp [h c (by simp)])]
    rw [ih fun x hx => h x (by simp [hx])]

theorem splitOnChar_no_sep (sep : Char) (l : List Char) (h : ∀ c ∈ l, c ≠ sep) :
    splitOnChar sep l = [l] := by
  induction l with
  | nil => rfl
  | cons c rest ih =>
    rw [splitOnChar, if_neg (h c (by simp)), ih fun x hx => h x (by simp [hx])]

theorem splitOnChar_append (sep : Char) (ds t : List Char)
    (hds : ∀ c ∈ ds, c ≠ sep) (ht : ∀ c ∈ t, c ≠ sep) :
    splitOnChar sep (ds ++ sep :: t) = [ds, t] := by
  induction ds with
  | nil =>
    rw [List.nil_append, splitOnChar, if_pos rfl, splitOnChar_no_sep sep t ht]
  | cons c rest ih =>
    rw [List.cons_append, splitOnChar, if_neg (hds c (by simp)),
      ih fun x hx => hds x (by simp [hx])]

theorem replaceFirstComma_no_comma (l : List Char) (h : ∀ c ∈ l, c ≠ ',') :
    replaceFirstComma l = l := by
  induction l with
  | nil => rfl
  | cons c rest ih =>
    rw [replaceFirstComma, if_neg (h c (by simp)), ih fun x hx => h x (by simp [hx])]

theorem group3_triple (a b c3 : Char) : group3 [a, b, c3] = [a, b, c3] := rfl

theorem group3_three_cons (a b c3 : Char) (r2 : List Char)
    (h3 : r2.length % 3 = 0) (hne : r2 ≠ []) :
    group3 (a :: b :: c3 :: r2) = a :: b :: c3 :: '.' :: group3 r2 := by
  have hlen : r2.length ≠ 0 := fun h => hne (List.length_eq_zero.mp h)
  have e1 : ¬ (((b :: c3 :: r2).length % 3 = 0 && (b :: c3 :: r2).length != 0) = true) := by
    simp only [List.length_cons]
    have : ¬ (r2.length + 1 + 1) % 3 = 0 := by omega
    simp [this]
  have e2 : ¬ (((c3 :: r2).length % 3 = 0 && (c3 :: r2).length != 0) = true) := by
    simp only [List.length_cons]
    have : ¬ (r2.length + 1) % 3 = 0 := by omega
    simp [this]
  have e3 : ((r2.length % 3 = 0 && r2.length != 0) = true) := by
    simp [h3, hlen]
  rw [group3, if_neg e1, group3, if_neg e2, group3, if_pos e3]

theorem dropGroupDots_group3 (t : List Char) (ht : dropGroupDots t = t)
    (htHead : ∀ c t', t = c :: t' → jsIsDigit c = false) (ds : List Char) :
    (∀ c ∈ ds, jsIsDigit c = true) → dropGroupDots (group3 ds ++ t) = ds ++ t := by
  induction ds with
  | nil =>
    intro _
    simpa [group3] using ht
  | cons c rest ih =>
    intro hds
    have hc : jsIsDigit c = true := hds c (by simp)
    have hcd : c ≠ '.' := jsIsDigit_ne_dot c hc
    have hrest : ∀ x ∈ rest, jsIsDigit x = true := fun x hx => hds x (by simp [hx])
    by_cases hcond : ((rest.length % 3 = 0 && rest.length != 0) = true)
    · have h30 : rest.length % 3 = 0 ∧ rest.length ≠ 0 := by simpa using hcond
      rcases rest with _ | ⟨a, _ | ⟨b, _ | ⟨c3, r2⟩⟩⟩
      · exact absurd rfl h30.2
      · exact absurd h30.1 (by simp)
      · exact absurd h30.1 (by simp)
      · have hr2 : r2.length % 3 = 0 := by
          have := h30.1
          simp only [List.length_cons] at this
          omega
        have ha : jsIsDigit a = true := hrest a (by simp)
        have hb : jsIsDigit b = true := hrest b (by simp)
        have hc3 : jsIsDigit c3 = true := hrest c3 (by simp)
        rw [group3, if_pos hcond, List.cons_append, List.cons_append]
        rw [dropGroupDots, if_neg (by simp [hcd])]
        have hlook : groupDotLookahead (group3 (a :: b :: c3 :: r2) ++ t) = true := by
          by_cases hr2nil : r2 = []
          · subst hr2nil
            rw [group3_triple]
            cases t with
            | nil => simp [groupDotLookahead, ha, hb, hc3]
            | cons x t' =>
              simp [groupDotLookahead, ha, hb, hc3, htHead x t' rfl]
          · rw [group3_three_cons a b c3 r2 hr2 hr2nil]
            simp [groupDotLookahead, ha, hb, hc3,
              show jsIsDigit '.' = false from rfl]
        rw [dropGroupDots, if_pos (by simp [hlook])]
        rw [ih hrest]
        rfl
    · rw [group3, if_neg hcond, List.cons_append]
      rw [dropGroupDots, if_neg (by simp [hcd])]
      rw [ih hrest]
      rfl

theorem takeWhile_all {p : Char → Bool} (l : List Char) (h : ∀ c ∈ l, p c = true) :
    l.takeWhile p = l := by
  induction l with
  | nil => rfl
  | cons c rest ih =>
    rw [List.takeWhile_cons, if_pos (h c (by simp)), ih fun x hx => h x (by simp [hx])]

theorem jsWordChar_of_digit (c : Char) (h : jsIsDigit c = true) : jsWordChar c = true := by
  simp [jsWordChar, h]

theorem groupRegexAux_digits (rest : List Char) :
    ∀ p : Char, (∀ c ∈ rest, jsIsDigit c = true) → jsWordChar p = true →
    groupRegexAux p rest
      = if 3 ≤ rest.length ∧ rest.length % 3 = 0 then '.' :: group3 rest
        else group3 rest := by
  induction rest with
  | nil =>
    intro p _ _
    simp [groupRegexAux, group3]
  | cons c r' ih =>
    intro p hdig hp
    have hc : jsIsDigit c = true := hdig c (by simp)
    have hcw : jsWordChar c = true := jsWordChar_of_digit c hc
    have hr' : ∀ x ∈ r', jsIsDigit x = true := fun x hx => hdig x (by simp [hx])
    have hrun : ((c :: r').takeWhile jsIsDigit).length = r'.length + 1 := by
      rw [takeWhile_all _ hdig]
      rfl
    have hnb : noWordBoundary p (c :: r') = true := by
      simp [noWordBoundary, hp, hcw]
    have hihc := ih c hr' hcw
    by_cases hcond : 3 ≤ r'.length + 1 ∧ (r'.length + 1) % 3 = 0
    · have htr : tripleRunOK (c :: r') = true := by
        simp [tripleRunOK, hrun, hcond.1, hcond.2]
      rw [groupRegexAux, if_pos (by simp [hnb, htr])]
      have hmod2 : ¬ (r'.length % 3 = 0 ∧ r'.length ≠ 0) := by
        rintro ⟨h1, -⟩
        have := hcond.2
        omega
      have hg : group3 (c :: r') = c :: group3 r' := by
        rw [group3, if_neg (by simp; omega)]
      have hih2 : groupRegexAux c r' = group3 r' := by
        rw [hihc, if_neg (by omega)]
      simp only [List.length_cons]
      rw [if_pos hcond, hg, hih2]
    · have htr : tripleRunOK (c :: r') = false := by
        simp only [tripleRunOK, hrun]
        rcases not_and_or.mp hcond with h1 | h1
        · simp [h1]
        · simp [h1]
      rw [groupRegexAux, if_neg (by simp [htr])]
      simp only [List.length_cons]
      rw [if_neg hcond]
      by_cases hsub : r'.length % 3 = 0 ∧ r'.length ≠ 0
      · have hg : group3 (c :: r') = c :: '.' :: group3 r' := by
          rw [group3, if_pos (by simp [hsub.1, hsub.2])]
        have hih2 : groupRegexAux c r' = '.' :: group3 r' := by
          rw [hihc, if_pos ⟨by omega, hsub.1⟩]
        rw [hg, hih2]
      · have hg : group3 (c :: r') = c :: group3 r' := by
          rw [group3, if_neg (by
            simp only [Bool.and_eq_true, decide_eq_true_eq, bne_iff_ne, ne_eq]
            rintro ⟨ha, hb⟩
            exact hsub ⟨ha, hb⟩)]
        have hih2 : groupRegexAux c r' = group3 r' := by
          rw [hihc, if_neg fun hcontra => hsub ⟨hcontra.2, by omega⟩]
        rw [hg, hih2]

theorem groupRegex_digits (l : List Char) (h : ∀ c ∈ l, jsIsDigit c = true) :
    groupRegex l = group3 l := by
  cases l with
  | nil => rfl
  | cons c rest =>
    have hc : jsIsDigit c = true := h c (by simp)
    have hrest : ∀ x ∈ rest, jsIsDigit x = true := fun x hx => h x (by simp [hx])
    rw [groupRegex, groupRegexAux_digits rest c hrest (jsWordChar_of_digit c hc)]
    by_cases hcond : 3 ≤ rest.length ∧ rest.length % 3 = 0
    · rw [if_pos hcond, group3, if_pos (by
        have h1 := hcond.1
        simp only [Bool.and_eq_true, decide_eq_true_eq, bne_iff_ne, ne_eq]
        exact ⟨hcond.2, by omega⟩)]
    · rw [if_neg hcond, group3, if_neg (by
        simp only [Bool.and_eq_true, decide_eq_true_eq, bne_iff_ne, ne_eq]
        rintro ⟨h1, h2⟩
        exact hcond ⟨by omega, h1⟩)]

theorem jsNumber_digits (ds : List Char) (hne : ds ≠ [])
    (hds : ∀ c ∈ ds, jsIsDigit c = true) :
    jsNumber ds = some ((natFromDigits ds : ℕ) : ℚ) := by
  obtain ⟨d, rest, rfl⟩ : ∃ d rest, ds = d :: rest := by
    cases ds with
    | nil => exact absurd rfl hne
    | cons d rest => exact ⟨d, rest, rfl⟩
  have hd : jsIsDigit d = true := hds d (by simp)
  have hdm : d ≠ '-' := jsIsDigit_ne_minus d hd
  have hsplit : splitOnChar '.' (d :: rest) = [d :: rest] :=
    splitOnChar_no_sep '.' _ fun c hc => jsIsDigit_ne_dot c (hds c hc)
  have hall : (d :: rest).all jsIsDigit = true := by
    rw [List.all_eq_true]
    exact hds
  simp [jsNumber, hdm, hsplit, hall]

theorem jsNumber_zero_dot (decS : List Char)
    (hds : ∀ c ∈ decS, jsIsDigit c = true) :
    jsNumber ('0' :: '.' :: decS)
      = some ((natFromDigits decS : ℕ) / (10 : ℚ) ^ decS.length) := by
  have hsplit : splitOnChar '.' ('0' :: '.' :: decS) = [['0'], decS] := by
    have h1 : ∀ c ∈ ['0'], c ≠ '.' := by
      intro c hc
      rcases List.mem_singleton.mp hc with rfl
      decide
    have h2 : ∀ c ∈ decS, c ≠ '.' := fun c hc => jsIsDigit_ne_dot c (hds c hc)
    simpa using splitOnChar_append '.' ['0'] decS h1 h2
  have hall : decS.all jsIsDigit = true := by
    rw [List.all_eq_true]
    exact hds
  simp [jsNumber, hsplit, hall, natFromDigits, digitVal,
    show jsIsDigit '0' = true from rfl]

theorem roundCents_exact (n : ℕ) : roundCents ((n : ℚ) / 100) = n := by
  rw [roundCents]
  have h1 : (100 : ℚ) * ((n : ℚ) / 100) = (n : ℚ) := by
    field_simp
  rw [h1]
  have h2 : ⌊(n : ℚ) + 1 / 2⌋ = (n : ℤ) := by
    rw [Int.floor_eq_iff]
    constructor
    · push_cast
      linarith
    · push_cast
      linarith
  rw [h2]
  exact Int.toNat_natCast n

theorem twoDigits_length (d : ℕ) : (twoDigits d).length = 2 := rfl

theorem parse_render (v : ℚ) (hv : 0 ≤ v) (hden : (100 * v).den = 1)
    (hlt : v < 10 ^ 21) :
    (normalizeMoneyInput (String.mk (renderMoney v))).value = v := by
  obtain ⟨n, hn⟩ : ∃ n : ℕ, (100 * v) = (n : ℚ) := by
    have h1 : (((100 * v).num : ℤ) : ℚ) = 100 * v := by
      conv_rhs => rw [← Rat.num_div_den (100 * v)]
      rw [hden]
      simp
    have hnum0 : 0 ≤ (100 * v).num := Rat.num_nonneg.mpr (by positivity)
    refine ⟨(100 * v).num.toNat, ?_⟩
    rw [← h1]
    norm_cast
    rw [Int.toNat_of_nonneg hnum0]
  have hv100 : v = (n : ℚ) / 100 := by
    rw [← hn]
    ring
  have hrender : renderMoney v
      = group3 (intPartRepr (n / 100)) ++ ',' :: twoDigits (n % 100) := by
    have hrc : roundCents v = n := by
      rw [hv100]
      exact roundCents_exact n
    have hsplit2 : splitOnChar '.' (toFixed2Chars v)
        = [intPartRepr (n / 100), twoDigits (n % 100)] := by
      rw [toFixed2Chars]
      simp only [hrc]
      exact splitOnChar_append '.' _ _
        (fun c hc => jsIsDigit_ne_dot c (intPartRepr_digits _ c hc))
        (fun c hc => jsIsDigit_ne_dot c
          (twoDigits_digits _ (Nat.mod_lt _ (by norm_num)) c hc))
    simp only [renderMoney, abs_of_nonneg hv, if_pos hlt, if_neg (not_lt.mpr hv),
      hsplit2, List.headD_cons, List.drop_succ_cons, List.drop_zero]
    rw [groupRegex_digits _ (intPartRepr_digits _)]
    simp
  set ds := intPartRepr (n / 100) with hds_def
  set decS := twoDigits (n % 100) with hdecS_def
  have hdsdig : ∀ c ∈ ds, jsIsDigit c = true := intPartRepr_digits _
  have hdecdig : ∀ c ∈ decS, jsIsDigit c = true :=
    twoDigits_digits _ (Nat.mod_lt _ (by norm_num))
  have hchars : ∀ c ∈ renderMoney v, renderChar c := by
    intro c hc
    rw [hrender] at hc
    rcases List.mem_append.mp hc with hc | hc
    · rcases group3_chars ds c hc with hc | rfl
      · exact Or.inl (hdsdig c hc)
      · exact Or.inr (Or.inl rfl)
    · rcases List.mem_cons.mp hc with rfl | hc
      · exact Or.inr (Or.inr rfl)
      · exact Or.inl (hdecdig c hc)
  have hs : String.mk (renderMoney v) ≠ "" := by
    intro h
    have hdata := congrArg String.data h
    rw [hrender] at hdata
    simp at hdata
  have hclean : cleanMoney (String.mk (renderMoney v)) = ds ++ ',' :: decS := by
    rw [cleanMoney]
    have hdata : (String.mk (renderMoney v)).data = renderMoney v := rfl
    rw [hdata]
    rw [filter_eq_self_of_all (renderMoney v) fun c hc =>
      (by simp [renderChar_not_space c (hchars c hc)] : (!jsIsSpace c) = true)]
    rw [filter_eq_self_of_all (renderMoney v) fun c hc =>
      renderChar_keep c (hchars c hc)]
    have hcount : (renderMoney v).countP (fun c => c = ',') ≤ 1 := by
      rw [hrender, List.countP_append, List.countP_cons]
      have hz1 : (group3 ds).countP (fun c => c = ',') = 0 := by
        rw [List.countP_eq_zero]
        intro c hc
        rcases group3_chars ds c hc with hc | rfl
        · simp [jsIsDigit_ne_comma c (hdsdig c hc)]
        · decide
      have hz2 : decS.countP (fun c => c = ',') = 0 := by
        rw [List.countP_eq_zero]
        intro c hc
        simp [jsIsDigit_ne_comma c (hdecdig c hc)]
      rw [hz1, hz2]
      simp
    rw [dropEarlyCommas_single _ hcount]
    rw [hrender]
    have ht : dropGroupDots (',' :: decS) = ',' :: decS := by
      apply dropGroupDots_no_dots
      intro c hc
      rcases List.mem_cons.mp hc with rfl | hc
      · decide
      · exact jsIsDigit_ne_dot c (hdecdig c hc)
    exact dropGroupDots_group3 (',' :: decS) ht
      (by
        intro c t' hct
        injection hct with h1 h2
        rw [← h1]
        rfl)
      ds hdsdig
  have hscrut : splitOnChar ',' (cleanMoney (String.mk (renderMoney v)))
      = [ds, decS] := by
    rw [hclean]
    exact splitOnChar_append ',' ds decS
      (fun c hc => jsIsDigit_ne_comma c (hdsdig c hc))
      (fun c hc => jsIsDigit_ne_comma c (hdecdig c hc))
  have hfds : ds.filter (fun c => c ≠ '.') = ds :=
    filter_eq_self_of_all _ fun c hc => by
      simp [jsIsDigit_ne_dot c (hdsdig c hc)]
  have hfdec : decS.filter (fun c => c ≠ '.') = decS :=
    filter_eq_self_of_all _ fun c hc => by
      simp [jsIsDigit_ne_dot c (hdecdig c hc)]
  have hj1 : jsNumber (ds.filter fun c => c ≠ '.') = some ((n / 100 : ℕ) : ℚ) := by
    rw [hfds, jsNumber_digits ds (intPartRepr_ne_nil _) hdsdig,
      hds_def, natFromDigits_intPartRepr]
  have hj2 : jsNumber ('0' :: '.' :: decS.filter fun c => c ≠ '.')
      = some (((n % 100 : ℕ) : ℚ) / 100) := by
    rw [hfdec, jsNumber_zero_dot decS hdecdig, hdecS_def, natFromDigits_twoDigits _
      (Nat.mod_lt _ (by norm_num)), twoDigits_length]
    norm_num
  simp only [normalizeMoneyInput, if_neg hs, hscrut, hj1, hj2]
  rw [hv100]
  have : ((n / 100 : ℕ) : ℚ) + ((n % 100 : ℕ) : ℚ) / 100 = ((n : ℕ) : ℚ) / 100 := by
    field_simp
    norm_cast
    omega
  exact this

theorem raw_eq_render (s : String) (hs : s ≠ "") :
    (normalizeMoneyInput s).raw
      = String.mk (renderMoney ((normalizeMoneyInput s).value)) := by
  simp only [normalizeMoneyInput, if_neg hs]

/-- C1 corrected: the amended idempotence.  Re-parsing the canonical
output reproduces the numeric value whenever that value is non-negative,
a whole number of cents (at most two decimal places), and below 10^21
(toFixed's fixed-notation range).  The claim as stated fails for
negative values with nonzero cents (the fraction is added to, not
subtracted from, the negative integer part), for values with more than
two decimals (rounded by the rendering), and for values of 10^21 or
more, where toFixed returns exponential notation whose letters the
re-parse strips. -/
theorem C1_money_normalizer_idempotent_amended (s : String)
    (hpos : 0 ≤ (normalizeMoneyInput s).value)
    (hden : (100 * (normalizeMoneyInput s).value).den = 1)
    (hlt : (normalizeMoneyInput s).value < 10 ^ 21) :
    (normalizeMoneyInput (normalizeMoneyInput s).raw).value
      = (normalizeMoneyInput s).value := by
  by_cases hs : s = ""
  · subst hs
    rfl
  · rw [raw_eq_render s hs]
    exact parse_render _ hpos hden hlt

/-- C1 counterexample, two independent failures.  The input -1,50 parses
to the value -0.5 (itself a parsing bug: the fraction is added to, not
subtracted from, the negative integer part), renders canonically as
-0,50, and re-parses to +0.5.  The 22-digit input 1 followed by 21
zeros parses to 10^21 — non-negative with whole cents — but toFixed
renders it as exponential notation, giving the canonical string 1e+21,
whose re-parse strips the letters and reads 121.  In both cases
normalizing the canonical output does not reproduce the numeric value. -/
theorem C1_money_normalizer_counterexample :
    (normalizeMoneyInput "-1,50").value = -(1 / 2) ∧
    (normalizeMoneyInput "-1,50").raw = "-0,50" ∧
    (normalizeMoneyInput "-0,50").value = 1 / 2 ∧
    (normalizeMoneyInput (normalizeMoneyInput "-1,50").raw).value
      ≠ (normalizeMoneyInput "-1,50").value ∧
    (normalizeMoneyInput "1000000000000000000000").value = 10 ^ 21 ∧
    0 ≤ (normalizeMoneyInput "1000000000000000000000").value ∧
    (100 * (normalizeMoneyInput "1000000000000000000000").value).den = 1 ∧
    (normalizeMoneyInput "1000000000000000000000").raw = "1e+21," ∧
    (normalizeMoneyInput "1e+21,").value = 121 ∧
    (normalizeMoneyInput (normalizeMoneyInput "1000000000000000000000").raw).value
      ≠ (normalizeMoneyInput "1000000000000000000000").value := by
  have hval : (normalizeMoneyInput "-1,50").value = -(1 / 2 : ℚ) := by
    simp [normalizeMoneyInput, cleanMoney, dropEarlyCommas, dropGroupDots,
      splitOnChar, jsNumber, replaceFirstComma, natFromDigits, digitVal, jsIsDigit,
      jsIsSpace, keepMoneyChar, groupDotLookahead, List.filter, List.all, List.head?,
      List.tail, List.contains]
    norm_num
  have hraw : (normalizeMoneyInput "-1,50").raw = "-0,50" := by
    rw [raw_eq_render _ (by decide), hval]
    have habs : |(-(1 / 2) : ℚ)| = 1 / 2 := by norm_num
    have hrc : roundCents ((1 : ℚ) / 2) = 50 := by
      have h1 : (100 : ℚ) * (1 / 2) + 1 / 2 = 101 / 2 := by norm_num
      rw [roundCents, h1]
      have h2 : ⌊(101 / 2 : ℚ)⌋ = 50 := by
        rw [Int.floor_eq_iff]
        norm_num
      rw [h2]
      rfl
    simp only [renderMoney, habs, if_pos (by norm_num : (1 / 2 : ℚ) < 10 ^ 21),
      toFixed2Chars, hrc]
    rw [if_pos (by norm_num : -(1 / 2 : ℚ) < 0)]
    decide
  have hval2 : (normalizeMoneyInput "-0,50").value = (1 / 2 : ℚ) := by
    simp [normalizeMoneyInput, cleanMoney, dropEarlyCommas, dropGroupDots,
      splitOnChar, jsNumber, replaceFirstComma, natFromDigits, digitVal, jsIsDigit,
      jsIsSpace, keepMoneyChar, groupDotLookahead, List.filter, List.all, List.head?,
      List.tail, List.contains]
    norm_num
  have hbigval : (normalizeMoneyInput "1000000000000000000000").value
      = (10 ^ 21 : ℚ) := by
    have hdigs : ∀ c ∈ ("1000000000000000000000" : String).data,
        jsIsDigit c = true := by decide
    have hnocomma : ∀ c ∈ ("1000000000000000000000" : String).data, c ≠ ',' :=
      fun c hc => jsIsDigit_ne_comma c (hdigs c hc)
    have hclean : cleanMoney "1000000000000000000000"
        = ("1000000000000000000000" : String).data := by
      rw [cleanMoney]
      rw [filter_eq_self_of_all (("1000000000000000000000" : String).data)
        fun c hc => (by simp [jsIsDigit_not_space c (hdigs c hc)] :
          (!jsIsSpace c) = true)]
      rw [filter_eq_self_of_all (("1000000000000000000000" : String).data)
        fun c hc => keepMoneyChar_of_digit c (hdigs c hc)]
      rw [dropEarlyCommas_single _ (by
        have h0 : (("1000000000000000000000" : String).data).countP
            (fun c => c = ',') = 0 := by
          rw [List.countP_eq_zero]
          intro c hc
          simp [hnocomma c hc]
        omega)]
      rw [dropGroupDots_no_dots _ fun c hc => jsIsDigit_ne_dot c (hdigs c hc)]
    have hsplit : splitOnChar ',' (("1000000000000000000000" : String).data)
        = [("1000000000000000000000" : String).data] :=
      splitOnChar_no_sep ',' _ hnocomma
    have hfdot : (("1000000000000000000000" : String).data).filter
        (fun c => c ≠ '.') = ("1000000000000000000000" : String).data :=
      filter_eq_self_of_all _ fun c hc => by
        simp [jsIsDigit_ne_dot c (hdigs c hc)]
    have hnat : natFromDigits (("1000000000000000000000" : String).data)
        = 10 ^ 21 := by decide
    have hjs : jsNumber (replaceFirstComma
          ((("1000000000000000000000" : String).data).filter fun c => c ≠ '.'))
        = some ((10 ^ 21 : ℕ) : ℚ) := by
      rw [hfdot, replaceFirstComma_no_comma _ hnocomma,
        jsNumber_digits _ (by decide) hdigs, hnat]
    simp only [normalizeMoneyInput, if_neg (by decide : ¬ ("1000000000000000000000"
      : String) = ""), hclean, hsplit, hjs]
    push_cast
    norm_num
  have hbigraw : (normalizeMoneyInput "1000000000000000000000").raw = "1e+21," := by
    rw [raw_eq_render _ (by decide), hbigval]
    have hfloor : ⌊(10 ^ 21 : ℚ) + 1 / 2⌋ = (10 ^ 21 : ℤ) := by
      rw [Int.floor_eq_iff]
      constructor
      · push_cast
        norm_num
      · push_cast
        norm_num
    have htn : ((10 : ℤ) ^ 21).toNat = (1000000000000000000000 : ℕ) := by
      rw [show (10 : ℤ) ^ 21 = (1000000000000000000000 : ℤ) from by norm_num]
      rfl
    have hjsbig : jsToStringBig ((10 : ℚ) ^ 21) = ['1', 'e', '+', '2', '1'] := by
      simp only [jsToStringBig, hfloor, htn]
      decide
    simp only [renderMoney, abs_of_nonneg (by positivity : (0 : ℚ) ≤ 10 ^ 21),
      if_neg (lt_irrefl ((10 : ℚ) ^ 21)), hjsbig,
      if_neg (by norm_num : ¬ ((10 : ℚ) ^ 21 < 0))]
    decide
  have hbigval2 : (normalizeMoneyInput "1e+21,").value = (121 : ℚ) := by
    simp [normalizeMoneyInput, cleanMoney, dropEarlyCommas, dropGroupDots,
      splitOnChar, jsNumber, replaceFirstComma, natFromDigits, digitVal, jsIsDigit,
      jsIsSpace, keepMoneyChar, groupDotLookahead, List.filter, List.all, List.head?,
      List.tail, List.contains]
  refine ⟨hval, hraw, hval2, ?_, hbigval, ?_, ?_, hbigraw, hbigval2, ?_⟩
  · rw [hraw, hval, hval2]
    norm_num
  · rw [hbigval]
    positivity
  · rw [hbigval]
    rw [show (100 : ℚ) * 10 ^ 21 = 100000000000000000000000 from by norm_num]
    rfl
  · rw [hbigraw, hbigval, hbigval2]
    norm_num

/-- Witness for C1 (amended) at the spec's own example input. -/
theorem C1_money_normalizer_idempotent_amended_witness :
    0 ≤ (normalizeMoneyInput "1.234,5").value ∧
    (100 * (normalizeMoneyInput "1.234,5").value).den = 1 ∧
    (normalizeMoneyInput "1.234,5").value < 10 ^ 21 ∧
    (normalizeMoneyInput (normalizeMoneyInput "1.234,5").raw).value
      = (normalizeMoneyInput "1.234,5").value := by
  have hval : (normalizeMoneyInput "1.234,5").value = (2469 / 2 : ℚ) := by
    simp [normalizeMoneyInput, cleanMoney, dropEarlyCommas, dropGroupDots,
      splitOnChar, jsNumber, replaceFirstComma, natFromDigits, digitVal, jsIsDigit,
      jsIsSpace, keepMoneyChar, groupDotLookahead, List.filter, List.all, List.head?,
      List.tail, List.contains]
    norm_num
  have hpos : 0 ≤ (normalizeMoneyInput "1.234,5").value := by
    rw [hval]
    norm_num
  have hden : (100 * (normalizeMoneyInput "1.234,5").value).den = 1 := by
    rw [hval]
    have : (100 : ℚ) * (2469 / 2) = 123450 := by norm_num
    rw [this]
    rfl
  have hlt : (normalizeMoneyInput "1.234,5").value < 10 ^ 21 := by
    rw [hval]
    norm_num
  exact ⟨hpos, hden, hlt,
    C1_money_normalizer_idempotent_amended "1.234,5" hpos hden hlt⟩

end FinanzasJader
